import Mathlib

/-!
Verification of the appmenu-ingestion pipeline of `qubesappmenus/receive.py`
(qubes-desktop-linux-common).

The Python code is shallowly embedded: Python strings become `List Char`
(`PyStr`), dictionaries become insertion-ordered association lists, the
filesystem (the launcher-templates directory) becomes an association list
from file name to file content, and exceptions become `Except`.  Every
definition follows the corresponding Python function line by line; the
regular expressions of `get_appmenus` are embedded as explicit
backtracking matchers with Python's leftmost / lazy / greedy semantics.
-/

namespace Receive

/-- Python strings are modelled as lists of characters. -/
abbrev PyStr := List Char

/-- Embed a Lean string literal as a modelled Python string. -/
def pys (s : String) : PyStr := s.toList

/-- Python `str.isspace` characters relevant here (ASCII whitespace, the set
stripped by `str.strip()` and matched by `\s` on the ASCII inputs this
pipeline handles). -/
def pyIsSpace (c : Char) : Bool :=
  c = ' ' || c = '\t' || c = '\n' || c = '\x0d' || c = '\x0b' || c = '\x0c'

/-- Python `str.strip()`: drop whitespace from both ends. -/
def pyStrip (s : PyStr) : PyStr :=
  ((s.dropWhile pyIsSpace).reverse.dropWhile pyIsSpace).reverse

/-- Python `str.split(sep)` for a one-character separator: every occurrence
of the separator splits, empty pieces are kept. -/
def splitOnChar (sep : Char) : PyStr → List PyStr
  | [] => [[]]
  | c :: rest =>
    match splitOnChar sep rest with
    | [] => [[]]
    | t :: ts => if c = sep then [] :: t :: ts else (c :: t) :: ts

/-- Python `sep.join(pieces)`. -/
def joinWith (sep : PyStr) : List PyStr → PyStr
  | [] => []
  | [x] => x
  | x :: y :: xs => x ++ sep ++ joinWith sep (y :: xs)

/-- Character class of the `std_re` pattern `\A[/a-zA-Z0-9.,:&()_ +-]*\Z`
used for the Name, GenericName and Comment fields. -/
def stdChar (c : Char) : Bool :=
  c.isAlpha || c.isDigit ||
    c = '/' || c = '.' || c = ',' || c = ':' || c = '&' || c = '(' ||
    c = ')' || c = '_' || c = ' ' || c = '+' || c = '-'

/-- Character class of the Categories pattern `\A[a-zA-Z0-9/.;:'() -]*\Z`. -/
def categoriesChar (c : Char) : Bool :=
  c.isAlpha || c.isDigit ||
    c = '/' || c = '.' || c = ';' || c = ':' || c = Char.ofNat 39 ||
    c = '(' || c = ')' || c = ' ' || c = '-'

/-- Character class of the Exec pattern `\A[a-zA-Z0-9()_&>/{}:.= -]*\Z`. -/
def execChar (c : Char) : Bool :=
  c.isAlpha || c.isDigit ||
    c = '(' || c = ')' || c = '_' || c = '&' || c = '>' || c = '/' ||
    c = Char.ofNat 123 || c = Char.ofNat 125 || c = ':' || c = '.' ||
    c = '=' || c = ' ' || c = '-'

/-- Character class of the Icon pattern `\A[a-zA-Z0-9/_.-]*\Z`. -/
def iconChar (c : Char) : Bool :=
  c.isAlpha || c.isDigit || c = '/' || c = '_' || c = '.' || c = '-'

/-- `fields_regexp`: the per-key allow-list pattern; `none` for a key
outside the fixed vocabulary.  A value is accepted when the pattern fully
matches it, i.e. every character is in the key's class. -/
def fields_regexp (key : PyStr) : Option (Char → Bool) :=
  if key = pys "Name" then some stdChar
  else if key = pys "GenericName" then some stdChar
  else if key = pys "Comment" then some stdChar
  else if key = pys "Categories" then some categoriesChar
  else if key = pys "Exec" then some execChar
  else if key = pys "Icon" then some iconChar
  else none

/-- `CATEGORIES_WHITELIST` from the source, as a list. -/
def CATEGORIES_WHITELIST : List PyStr :=
  [pys "AudioVideo", pys "Audio", pys "Video", pys "Development",
   pys "Education", pys "Game", pys "Graphics", pys "Network", pys "Office",
   pys "Science", pys "Settings", pys "System", pys "Utility",
   pys "Building", pys "Debugger", pys "IDE", pys "GUIDesigner",
   pys "Profiling", pys "RevisionControl", pys "Translation", pys "Calendar",
   pys "ContactManagement", pys "Database", pys "Dictionary", pys "Chart",
   pys "Email", pys "Finance", pys "FlowChart", pys "PDA",
   pys "ProjectManagement", pys "Presentation", pys "Spreadsheet",
   pys "WordProcessor", pys "2DGraphics", pys "VectorGraphics",
   pys "RasterGraphics", pys "3DGraphics", pys "Scanning", pys "OCR",
   pys "Photography", pys "Publishing", pys "Viewer", pys "TextTools",
   pys "DesktopSettings", pys "HardwareSettings", pys "Printing",
   pys "PackageManager", pys "Dialup", pys "InstantMessaging", pys "Chat",
   pys "IRCClient", pys "Feed", pys "FileTransfer", pys "HamRadio",
   pys "News", pys "P2P", pys "RemoteAccess", pys "Telephony",
   pys "TelephonyTools", pys "VideoConference", pys "WebBrowser",
   pys "WebDevelopment", pys "Midi", pys "Mixer", pys "Sequencer",
   pys "Tuner", pys "TV", pys "AudioVideoEditing", pys "Player",
   pys "Recorder", pys "DiscBurning", pys "ActionGame", pys "AdventureGame",
   pys "ArcadeGame", pys "BoardGame", pys "BlocksGame", pys "CardGame",
   pys "KidsGame", pys "LogicGame", pys "RolePlaying", pys "Shooter",
   pys "Simulation", pys "SportsGame", pys "StrategyGame", pys "Art",
   pys "Construction", pys "Music", pys "Languages",
   pys "ArtificialIntelligence", pys "Astronomy", pys "Biology",
   pys "Chemistry", pys "ComputerScience", pys "DataVisualization",
   pys "Economy", pys "Electricity", pys "Geography", pys "Geology",
   pys "Geoscience", pys "History", pys "Humanities", pys "ImageProcessing",
   pys "Literature", pys "Maps", pys "Math", pys "NumericalAnalysis",
   pys "MedicalSoftware", pys "Physics", pys "Robotics", pys "Spirituality",
   pys "Sports", pys "ParallelComputing", pys "Amusement", pys "Archiving",
   pys "Compression", pys "Electronics", pys "Emulator", pys "Engineering",
   pys "FileTools", pys "FileManager", pys "TerminalEmulator",
   pys "Filesystem", pys "Monitor", pys "Security", pys "Accessibility",
   pys "Calculator", pys "Clock", pys "TextEditor", pys "Documentation",
   pys "Adult", pys "Core", pys "KDE", pys "GNOME", pys "XFCE", pys "GTK",
   pys "Qt", pys "Motif", pys "Java", pys "ConsoleOnly"]

/-- `sanitise_categories`: split the raw value on `;`, drop empty pieces,
strip each piece, keep only whitelisted categories, rejoin with `;` and a
trailing `;`. -/
def sanitise_categories (untrusted_value : PyStr) : PyStr :=
  let untrusted_categories :=
    ((splitOnChar ';' untrusted_value).filter (fun c => ¬c = [])).map pyStrip
  let categories :=
    untrusted_categories.filter (fun c => CATEGORIES_WHITELIST.contains c)
  joinWith (pys ";") categories ++ pys ";"

/-- The characters `shlex.quote` treats as safe: ASCII letters, digits,
underscore, and the punctuation at-sign, percent, plus, equals, colon,
comma, dot, slash, hyphen (the complement of `_find_unsafe`). -/
def shlexSafeChar (c : Char) : Bool :=
  c.isAlpha || c.isDigit ||
    c = '_' || c = '@' || c = '%' || c = '+' || c = '=' || c = ':' ||
    c = ',' || c = '.' || c = '/' || c = '-'

/-- The apostrophe character. -/
def squote : Char := Char.ofNat 39

/-- `shlex.quote`: empty strings become two apostrophes, fully safe strings
pass unchanged, all others are wrapped in apostrophes with every inner
apostrophe replaced by an apostrophe, a double-quoted apostrophe and an
apostrophe again. -/
def shlex_quote (s : PyStr) : PyStr :=
  if s = [] then [squote, squote]
  else if s.all shlexSafeChar then s
  else
    [squote] ++
      (s.map (fun c =>
        if c = squote then [squote, '"', squote, '"', squote] else [c])).flatten
      ++ [squote]

/-! ## Dictionaries and the filesystem -/

/-- A Python `dict` from field key to sanitized value, as an
insertion-ordered association list with unique keys. -/
abbrev FieldMap := List (PyStr × PyStr)

/-- Dictionary lookup (`values[k]` / `k in values`). -/
def fmLookup : FieldMap → PyStr → Option PyStr
  | [], _ => none
  | (k', v') :: rest, k => if k' = k then some v' else fmLookup rest k

/-- Dictionary update `values[k] = v`: overwrite in place, else append. -/
def fmInsert : FieldMap → PyStr → PyStr → FieldMap
  | [], k, v => [(k, v)]
  | (k', v') :: rest, k, v =>
    if k' = k then (k, v) :: rest else (k', v') :: fmInsert rest k v

/-- Dictionary deletion `del values[k]` (first occurrence). -/
def fmErase : FieldMap → PyStr → FieldMap
  | [], _ => []
  | (k', v') :: rest, k => if k' = k then rest else (k', v') :: fmErase rest k

/-- The `appmenus` dict from entry name to its field mapping. -/
abbrev EntryMap := List (PyStr × FieldMap)

/-- Lookup of one entry's field mapping. -/
def emLookup : EntryMap → PyStr → Option FieldMap
  | [], _ => none
  | (n', fm) :: rest, n => if n' = n then some fm else emLookup rest n

/-- `appmenus[name][key] = value`, creating `appmenus[name]` as an empty
dict first when absent (as the source does). -/
def emSetKey : EntryMap → PyStr → PyStr → PyStr → EntryMap
  | [], n, k, v => [(n, [(k, v)])]
  | (n', fm) :: rest, n, k, v =>
    if n' = n then (n', fmInsert fm k v) :: rest
    else (n', fm) :: emSetKey rest n k v

/-- `appmenus.pop(name, None)` (first occurrence). -/
def emErase : EntryMap → PyStr → EntryMap
  | [], _ => []
  | (n', fm) :: rest, n => if n' = n then rest else (n', fm) :: emErase rest n

/-- The launcher-templates directory, as a map from file name to file
content. -/
abbrev FS := List (PyStr × PyStr)

/-- Read a file if it exists. -/
def fsRead : FS → PyStr → Option PyStr
  | [], _ => none
  | (f, c) :: rest, p => if f = p then some c else fsRead rest p

/-- Write (create or overwrite) a file. -/
def fsWrite : FS → PyStr → PyStr → FS
  | [], p, c => [(p, c)]
  | (f, c') :: rest, p, c =>
    if f = p then (p, c) :: rest else (f, c') :: fsWrite rest p c

/-- `os.unlink`: remove a file. -/
def fsDelete (fs : FS) (p : PyStr) : FS :=
  fs.filter (fun fc => ¬fc.1 = p)

/-- `os.listdir`: the file names, in directory order. -/
def fsList (fs : FS) : List PyStr := fs.map Prod.fst

/-! ## The line parser (`line_rx` and `ignore_rx`)

`line_rx = ([a-zA-Z0-9._-]+?)(?:\.desktop)?:([a-zA-Z0-9-]+(?:\[[a-zA-Z@_]+\])?)\s*=\s*(.*)`
is applied with `re.search`; `ignore_rx = \A.*([a-zA-Z0-9._-]+.desktop):(#.*|\s*)\Z`
with `re.match`.  Both are embedded with Python's leftmost-start, lazy
(group 1) and greedy (all other quantifiers) backtracking order. -/

/-- Characters of the entry-name class `[a-zA-Z0-9._-]`. -/
def nameClassChar (c : Char) : Bool :=
  c.isAlpha || c.isDigit || c = '.' || c = '_' || c = '-'

/-- Characters of the key class `[a-zA-Z0-9-]`. -/
def keyClassChar (c : Char) : Bool :=
  c.isAlpha || c.isDigit || c = '-'

/-- Characters of the locale-qualifier class `[a-zA-Z@_]`. -/
def bracketClassChar (c : Char) : Bool :=
  c.isAlpha || c = '@' || c = '_'

/-- The tail of `ignore_rx` after the colon: a `#` comment (`.` never
matches a newline) or whitespace only, to the end of the string. -/
def tailOk (t : PyStr) : Bool :=
  match t with
  | '#' :: rest => rest.all (fun c => ¬c = '\n')
  | _ => t.all pyIsSpace

/-- `ignore_rx.match(line)`: the line is `.*` then at least one name-class
character, then one arbitrary non-newline character (the unescaped dot of
`+.desktop`), then `desktop:`, then a comment or whitespace tail.
Equivalently: `desktop:` occurs at a position `i ≥ 2` whose two preceding
characters end in (name-class char, any char), everything before it is
newline-free, and the tail after it is a comment or whitespace. -/
def ignore_rx_match (s : PyStr) : Bool :=
  (List.range (s.length + 1)).any (fun i =>
    decide (2 ≤ i) &&
    decide ((s.drop i).take 8 = pys "desktop:") &&
    (s.take i).all (fun c => ¬c = '\n') &&
    (match (s.take i).reverse with
     | _ :: b :: _ => nameClassChar b
     | _ => false) &&
    tailOk (s.drop (i + 8)))

/-- `\s*=\s*(.*)`: skip whitespace, require `=`, skip whitespace, the value
is the rest of the line up to a newline (`.*` is greedy and unanchored). -/
def eqVal (r : PyStr) : Option PyStr :=
  match r.dropWhile pyIsSpace with
  | '=' :: r2 => some ((r2.dropWhile pyIsSpace).takeWhile (fun c => ¬c = '\n'))
  | _ => none

/-- Group 2's optional locale qualifier `(?:\[[a-zA-Z@_]+\])?` (greedy:
tried before its absence), followed by `\s*=\s*(.*)`.  Returns the full
group 2 text and group 3. -/
def tryBracket (core : PyStr) (rest : PyStr) : Option (PyStr × PyStr) :=
  let noBr := (eqVal rest).map (fun v => (core, v))
  match rest with
  | '[' :: u =>
    let content := u.takeWhile bracketClassChar
    if content = [] then noBr
    else
      match u.drop content.length with
      | ']' :: after =>
        match eqVal after with
        | some v => some (core ++ '[' :: (content ++ [']']), v)
        | none => noBr
      | _ => noBr
  | _ => noBr

/-- Greedy `[a-zA-Z0-9-]+` for group 2: try the longest run first, then
backtrack one character at a time. -/
def matchKeyAux (t : PyStr) : Nat → Option (PyStr × PyStr)
  | 0 => none
  | Nat.succ n =>
    match tryBracket (t.take (Nat.succ n)) (t.drop (Nat.succ n)) with
    | some r => some r
    | none => matchKeyAux t n

/-- Match group 2 and the rest of the pattern against `t`. -/
def matchKeyCore (t : PyStr) : Option (PyStr × PyStr) :=
  matchKeyAux t (t.takeWhile keyClassChar).length

/-- After group 1: the greedy optional `(?:\.desktop)?` (presence tried
first), the `:` and the rest of the pattern. -/
def afterName (r : PyStr) : Option (PyStr × PyStr) :=
  let tryColon : PyStr → Option (PyStr × PyStr) := fun t =>
    match t with
    | ':' :: t2 => matchKeyCore t2
    | _ => none
  match (if r.take 8 = pys ".desktop" then tryColon (r.drop 8) else none) with
  | some res => some res
  | none => tryColon r

/-- Lazy `([a-zA-Z0-9._-]+?)` at a fixed start: after each name-class
character taken (at least one), first try the rest of the pattern, then
extend the name. -/
def findName (acc : PyStr) : PyStr → Option (PyStr × PyStr × PyStr)
  | [] => none
  | c :: rest =>
    if nameClassChar c then
      match afterName rest with
      | some (k, v) => some (acc ++ [c], k, v)
      | none => findName (acc ++ [c]) rest
    else none

/-- `line_rx.search(line)`: try each start position from the left (the
source comment: "use search instead of match to skip file path"). -/
def line_rx_search : PyStr → Option (PyStr × PyStr × PyStr)
  | [] => none
  | c :: rest =>
    match findName [] (c :: rest) with
    | some r => some r
    | none => line_rx_search rest

/-- One iteration of the parsing loop of `get_appmenus` (lines 164-200):
skip blank and ignorable lines, search `line_rx`, keep only keys of the
fixed vocabulary whose value fully matches the key's pattern, route
Categories through `sanitise_categories`, and store last-write-wins.
The `assert` statements on name and key (no `/`, NUL, ESC, `=`) hold by
construction of the match groups and are proved separately. -/
def parse_step (appmenus : EntryMap) (untrusted_line : PyStr) : EntryMap :=
  if untrusted_line = [] || ignore_rx_match untrusted_line then appmenus
  else
    match line_rx_search untrusted_line with
    | none => appmenus
    | some (name, untrusted_key, g3) =>
      let untrusted_value := pyStrip g3
      match fields_regexp untrusted_key with
      | none => appmenus
      | some pat =>
        if untrusted_value.all pat then
          let value :=
            if untrusted_key = pys "Categories" then
              sanitise_categories untrusted_value
            else untrusted_value
          emSetKey appmenus name untrusted_key value
        else appmenus
  -- a pattern mismatch prints "Warning: ignoring key ..." and drops the key

/-- The assembly half of `get_appmenus`: fold the parsing loop over the
retrieved lines. -/
def get_appmenus_parse (lines : List PyStr) : EntryMap :=
  lines.foldl parse_step []

/-! ## The bounded line reader (`get_appmenus`, limits) -/

/-- `appmenus_line_count` from the source. -/
def appmenus_line_count : Nat := 100000

/-- Errors that abort the whole run. -/
inductive RunError where
  /-- `QubesException("Line count limit exceeded")`. -/
  | limitExceeded : RunError
  /-- `QubesException("Error getting application list")`. -/
  | serviceFailed : RunError
  /-- A failed `assert` in `create_template`. -/
  | assertFailed : RunError
deriving DecidableEq, Repr

/-- Decidable equality for `Except` results, so concrete runs can be
checked by `decide`. -/
instance {e a : Type} [DecidableEq e] [DecidableEq a] :
    DecidableEq (Except e a) := fun x y =>
  match x, y with
  | Except.error x1, Except.error y1 =>
    if h : x1 = y1 then Decidable.isTrue (by rw [h])
    else Decidable.isFalse (fun hh => h (Except.error.inj hh))
  | Except.error _, Except.ok _ =>
    Decidable.isFalse (fun hh => Except.noConfusion hh)
  | Except.ok _, Except.error _ =>
    Decidable.isFalse (fun hh => Except.noConfusion hh)
  | Except.ok x1, Except.ok y1 =>
    if h : x1 = y1 then Decidable.isTrue (by rw [h])
    else Decidable.isFalse (fun hh => h (Except.ok.inj hh))

/-- The stdin read loop: while the limit is positive, read a line (each
element of `input` is one `readline` result, already capped at
`appmenus_line_size`), stop at EOF (an empty line), strip and collect, and
decrement the limit.  Returns the collected lines and the remaining
limit. -/
def read_stdin_loop : Nat → List PyStr → List PyStr × Nat
  | 0, _ => ([], 0)
  | Nat.succ n, [] => ([], Nat.succ n)
  | Nat.succ n, l :: ls =>
    if l = [] then ([], Nat.succ n)
    else
      let r := read_stdin_loop n ls
      (pyStrip l :: r.1, r.2)

/-- The stdin branch of `get_appmenus` (lines 129-137): after the loop, a
remaining limit of zero raises "Line count limit exceeded". -/
def get_appmenus_stdin (input : List PyStr) : Except RunError (List PyStr) :=
  let r := read_stdin_loop appmenus_line_count input
  if r.2 = 0 then Except.error RunError.limitExceeded else Except.ok r.1

/-- `line.decode('ascii')`: succeeds exactly when every byte is below 128. -/
def decode_ascii (b : List Nat) : Option PyStr :=
  if b.all (fun x => x < 128) then some (b.map Char.ofNat) else none

/-- The remote-service read loop (lines 140-150): like the stdin loop but
over byte lines; a line failing strict ASCII decoding is silently dropped,
yet the limit is decremented for it all the same. -/
def read_remote_loop : Nat → List (List Nat) → List PyStr × Nat
  | 0, _ => ([], 0)
  | Nat.succ n, [] => ([], Nat.succ n)
  | Nat.succ n, b :: bs =>
    if b = [] then ([], Nat.succ n)
    else
      let r := read_remote_loop n bs
      (match decode_ascii b with
       | some line => pyStrip line :: r.1
       | none => r.1, r.2)

/-- The remote-service branch of `get_appmenus` (lines 139-157): after the
loop the service's exit status is checked first, then the line-count
limit. -/
def get_appmenus_remote (input : List (List Nat)) (returncode : Int) :
    Except RunError (List PyStr) :=
  let r := read_remote_loop appmenus_line_count input
  if decide (returncode = 0) = false then Except.error RunError.serviceFailed
  else if r.2 = 0 then Except.error RunError.limitExceeded
  else Except.ok r.1

/-! ## The template renderer (`create_template`) -/

/-- `required_fields_legacy` from the source. -/
def required_fields_legacy : List PyStr := [pys "Name", pys "Exec"]

/-- `required_fields` from the source. -/
def required_fields : List PyStr := [pys "Name"]

/-- Modelled from the spec: the icon-templates subdirectory name comes from
`qubesappmenus.AppmenusSubdirs.icons_subdir`, a module outside `src/`
("a launcher-templates directory and an icon-templates directory, both
VM-scoped"); its exact value affects no claim. -/
def icons_subdir : PyStr := pys "apps.tempicons"

/-- Modelled from the spec: the bundled `qubes-start.desktop.template`
resource is outside `src/` ("write a static bundled template exactly
once"); its exact content affects no claim. -/
def qubes_start_template_data : PyStr :=
  pys "[Desktop Entry]\nType=Application\nName=%VMNAME%: Start\n"

/-- `os.path.split(p)[1]` for the relative paths used here: the part after
the last slash. -/
def basename (p : PyStr) : PyStr :=
  (p.reverse.takeWhile (fun c => ¬c = '/')).reverse

/-- Cut a trailing extension: `some base` when a dot exists (base is the
part before the last dot), else `none`. -/
def cutExt : PyStr → Option PyStr
  | [] => none
  | c :: cs =>
    match cutExt cs with
    | some b => some (c :: b)
    | none => if c = '.' then some [] else none

/-- `os.path.splitext(b)[0]` for a basename: leading dots never start an
extension. -/
def splitext_base (b : PyStr) : PyStr :=
  let lead := b.takeWhile (fun c => c = '.')
  let rest := b.drop lead.length
  lead ++ (match cutExt rest with
           | some base => base
           | none => rest)

/-- A `{0}=%VMNAME%: {1}` line for Name / GenericName, empty when the key
is absent. -/
def keyNameLine (values : FieldMap) (key : PyStr) : PyStr :=
  match fmLookup values key with
  | some v => key ++ pys "=%VMNAME%: " ++ v ++ pys "\n"
  | none => []

/-- A plain `{0}={1}` line for Comment / Categories, empty when the key is
absent. -/
def keyPlainLine (values : FieldMap) (key : PyStr) : PyStr :=
  match fmLookup values key with
  | some v => key ++ pys "=" ++ v ++ pys "\n"
  | none => []

/-- Lines 228-233 of `create_template`: the fixed header and the
X-Qubes-AppName line. -/
def de_header (name : PyStr) : PyStr :=
  pys "[Desktop Entry]\nVersion=1.0\nType=Application\nTerminal=false\nX-Qubes-VmName=%VMNAME%\n"
    ++ pys "X-Qubes-AppName=" ++ name ++ pys "\n"

/-- Lines 235-240: the Icon line (per-entry icon path, or the
placeholder). -/
def de_icon (path : PyStr) (values : FieldMap) : PyStr :=
  if (fmLookup values (pys "Icon")).isSome then
    pys "Icon=%VMDIR%/" ++ icons_subdir ++ pys "/"
      ++ splitext_base (basename path) ++ pys ".png\n"
  else pys "Icon=%XDGICON%\n"

/-- Lines 242-244: the VM-name-prefixed Name and GenericName lines. -/
def de_names (values : FieldMap) : PyStr :=
  keyNameLine values (pys "Name") ++ keyNameLine values (pys "GenericName")

/-- Line 247: the in-place forced-category update
`values["Categories"] = values.get("Categories", "") + "X-Qubes-VM;"`. -/
def de_values2 (values : FieldMap) : FieldMap :=
  fmInsert values (pys "Categories")
    (((fmLookup values (pys "Categories")).getD []) ++ pys "X-Qubes-VM;")

/-- Lines 249-251: the Comment and Categories lines (off the mutated
dict). -/
def de_tags (values2 : FieldMap) : PyStr :=
  keyPlainLine values2 (pys "Comment") ++ keyPlainLine values2 (pys "Categories")

/-- Lines 253-268: the mode-dependent Exec and X-Qubes-DispvmExec lines
(legacy: `qvm-run` of the shell-quoted Exec value; service:
`qubes.StartApp+<name>`). -/
def de_exec (name : PyStr) (values2 : FieldMap) (legacy : Bool) : PyStr :=
  if legacy then
    pys "Exec=qvm-run -q -a %VMNAME% -- "
      ++ shlex_quote ((fmLookup values2 (pys "Exec")).getD []) ++ pys "\n"
      ++ pys "X-Qubes-DispvmExec=qvm-run -q -a --dispvm=%VMNAME% -- "
      ++ shlex_quote ((fmLookup values2 (pys "Exec")).getD []) ++ pys "\n"
  else
    pys "Exec=qvm-run -q -a --service -- %VMNAME% qubes.StartApp+"
      ++ name ++ pys "\n"
      ++ pys "X-Qubes-DispvmExec=qvm-run -q -a --service --dispvm=%VMNAME% -- qubes.StartApp+"
      ++ name ++ pys "\n"

/-- The `desktop_entry` text built by `create_template` (lines 227-268),
together with the `values` dict as mutated by the forced-category update
of line 247. -/
def desktop_entry_for (path name : PyStr) (values : FieldMap) (legacy : Bool) :
    FieldMap × PyStr :=
  (de_values2 values,
   de_header name ++ de_icon path values ++ de_names values
     ++ de_tags (de_values2 values) ++ de_exec name (de_values2 values) legacy)

/-- `create_template` (lines 205-276): skip (with a stderr warning) when a
required field is missing; in service mode re-assert that the name holds
no space, `;` or `%`; then write the rendered body to `path` only when it
differs from the existing content (a missing file reads as empty).
Returns the filesystem, the (possibly mutated) values dict, and whether a
write happened. -/
def create_template (fs : FS) (path name : PyStr) (values : FieldMap)
    (legacy : Bool) : Except RunError (FS × FieldMap × Bool) :=
  let req_fields := if legacy then required_fields_legacy else required_fields
  if req_fields.all (fun k => (fmLookup values k).isSome) then
    if !legacy && (name.contains ' ' || name.contains ';' || name.contains '%') then
      Except.error RunError.assertFailed
    else
      let r := desktop_entry_for path name values legacy
      let existing := (fsRead fs path).getD []
      if r.2 = existing then Except.ok (fs, r.1, false)
      else Except.ok (fsWrite fs path r.2, r.1, true)
  else Except.ok (fs, values, false)

/-! ## The directory reconciler (`process_appmenus_templates`) -/

/-- The protected bootstrap file name. -/
def qubes_start_desktop : PyStr := pys "qubes-start.desktop"

/-- The net effect of the icon pipeline (lines 327-348) on one entry's
field mapping.  The external converter and the icon directory are
collaborators outside this core; `iconDrop name` says whether, for this
entry, the converter failed with no previous on-disk icon — the one case
in which the source deletes the entry's Icon key.  With no Icon key the
pipeline does nothing. -/
def icon_adjust (iconDrop : PyStr → Bool) (name : PyStr) (values : FieldMap) :
    FieldMap :=
  if (fmLookup values (pys "Icon")).isSome && iconDrop name then
    fmErase values (pys "Icon")
  else values

/-- The per-entry loop of `process_appmenus_templates` (lines 315-351):
icon pipeline, then `create_template` on `<name>.desktop`.  Returns the
filesystem and the list of paths written. -/
def process_entries (iconDrop : PyStr → Bool) (legacy : Bool) :
    List (PyStr × FieldMap) → FS → Except RunError (FS × List PyStr)
  | [], fs => Except.ok (fs, [])
  | (name, values) :: rest, fs =>
    let values1 := icon_adjust iconDrop name values
    match create_template fs (name ++ pys ".desktop") name values1 legacy with
    | Except.error e => Except.error e
    | Except.ok (fs1, _, wrote) =>
      match process_entries iconDrop legacy rest fs1 with
      | Except.error e => Except.error e
      | Except.ok (fs2, written) =>
        Except.ok (fs2, (if wrote then [name ++ pys ".desktop"] else []) ++ written)

/-- `appmenu_file.endswith('.desktop')`. -/
def endsDesktop (f : PyStr) : Bool :=
  decide (f.drop (f.length - 8) = pys ".desktop")

/-- `appmenu_file[:-len('.desktop')]`. -/
def dropDesktopExt (f : PyStr) : PyStr := f.take (f.length - 8)

/-- Whether the garbage-collection loop (lines 354-365) unlinks a file:
it must end in `.desktop`, not be the protected `qubes-start.desktop`
(protected only when `has_qubes_start`), and its base name must not be a
current entry. -/
def gc_should_delete (has_qubes_start : Bool) (names : List PyStr)
    (f : PyStr) : Bool :=
  endsDesktop f &&
  !(has_qubes_start && f == qubes_start_desktop) &&
  !names.contains (dropDesktopExt f)

/-- The garbage-collection loop itself: over a snapshot of the directory
listing, unlink every stale launcher.  Returns the filesystem and the
deleted names. -/
def gc_fold (has_qubes_start : Bool) (names : List PyStr) :
    List PyStr → FS → FS × List PyStr
  | [], fs => (fs, [])
  | f :: files, fs =>
    if gc_should_delete has_qubes_start names f then
      let r := gc_fold has_qubes_start names files (fsDelete fs f)
      (r.1, f :: r.2)
    else gc_fold has_qubes_start names files fs

/-- `process_appmenus_templates` (lines 279-367) over the
launcher-templates directory: write the bootstrap launcher once when
applicable, drop the reserved `qubes-start` entry, process every entry,
then garbage-collect stale launchers.  Returns the filesystem, the list of
paths written and the list of paths deleted. -/
def process_appmenus_templates (fs : FS) (appmenus : EntryMap)
    (legacy has_qubes_start : Bool) (iconDrop : PyStr → Bool) :
    Except RunError (FS × List PyStr × List PyStr) :=
  let boot :=
    if has_qubes_start && (fsRead fs qubes_start_desktop).isNone then
      (fsWrite fs qubes_start_desktop qubes_start_template_data,
       [qubes_start_desktop])
    else (fs, [])
  let appmenus1 := emErase appmenus (pys "qubes-start")
  match process_entries iconDrop legacy appmenus1 boot.1 with
  | Except.error e => Except.error e
  | Except.ok (fs1, written) =>
    let r := gc_fold has_qubes_start (appmenus1.map Prod.fst) (fsList fs1) fs1
    Except.ok (r.1, boot.2 ++ written, r.2)

/-- `main` restricted to the stdin path (lines 406-415 with
`retrieve_appmenus_templates`): retrieve, and only on success parse and
reconcile; an empty result for a non-AppVM skips reconciliation. -/
def sync_appmenus_stdin (input : List PyStr) (fs : FS) (legacy : Bool)
    (vmIsAppVM : Bool) (iconDrop : PyStr → Bool) :
    Except RunError (FS × List PyStr × List PyStr) :=
  match get_appmenus_stdin input with
  | Except.error e => Except.error e
  | Except.ok lines =>
    let new_appmenus := get_appmenus_parse lines
    if new_appmenus == [] && !vmIsAppVM then Except.ok (fs, [], [])
    else
      process_appmenus_templates fs new_appmenus legacy (!vmIsAppVM) iconDrop

/-! ## Basic lemmas about dictionaries and the filesystem -/

theorem fmLookup_fmInsert (m : FieldMap) (k v k') :
    fmLookup (fmInsert m k v) k' = if k = k' then some v else fmLookup m k' := by
  induction m with
  | nil => simp only [fmInsert, fmLookup]
  | cons kv rest ih =>
    obtain ⟨k0, v0⟩ := kv
    by_cases h0 : k0 = k
    · subst h0
      by_cases h1 : k0 = k'
      · subst h1
        simp [fmInsert, fmLookup]
      · simp [fmInsert, fmLookup, h1]
    · by_cases h1 : k0 = k'
      · subst h1
        simp [fmInsert, fmLookup, h0, Ne.symm h0]
      · simp [fmInsert, fmLookup, h0, h1, ih]

theorem fmLookup_fmErase_ne (m : FieldMap) (k k') (h : ¬k' = k) :
    fmLookup (fmErase m k) k' = fmLookup m k' := by
  induction m with
  | nil => simp [fmErase]
  | cons kv rest ih =>
    obtain ⟨k0, v0⟩ := kv
    by_cases h0 : k0 = k
    · subst h0
      simp [fmErase, fmLookup, Ne.symm h]
    · by_cases h1 : k0 = k'
      · subst h1
        simp [fmErase, fmLookup, h0]
      · simp [fmErase, fmLookup, h0, h1, ih]

theorem fsRead_fsWrite (fs : FS) (p c q) :
    fsRead (fsWrite fs p c) q = if p = q then some c else fsRead fs q := by
  induction fs with
  | nil => simp only [fsWrite, fsRead]
  | cons fc rest ih =>
    obtain ⟨f, c0⟩ := fc
    by_cases h0 : f = p
    · subst h0
      by_cases h1 : f = q
      · subst h1
        simp [fsWrite, fsRead]
      · simp [fsWrite, fsRead, h1]
    · by_cases h1 : f = q
      · subst h1
        simp [fsWrite, fsRead, h0, Ne.symm h0]
      · simp [fsWrite, fsRead, h0, h1, ih]

theorem fsRead_fsDelete (fs : FS) (p q) :
    fsRead (fsDelete fs p) q = if q = p then none else fsRead fs q := by
  induction fs with
  | nil => simp [fsDelete, fsRead]
  | cons fc rest ih =>
    obtain ⟨f, c0⟩ := fc
    by_cases h0 : f = p
    · subst h0
      by_cases h1 : q = f
      · subst h1
        simp [fsDelete, List.filter_cons, fsRead] at ih ⊢
        simpa using ih
      · simp [fsDelete, List.filter_cons, fsRead, h1, Ne.symm h1] at ih ⊢
        simpa [h1] using ih
    · by_cases h1 : f = q
      · subst h1
        simp [fsDelete, List.filter_cons, fsRead, h0, Ne.symm h0] at ih ⊢
      · by_cases h2 : q = p
        · subst h2
          simp [fsDelete, List.filter_cons, fsRead, h0, h1] at ih ⊢
          simpa using ih
        · simp [fsDelete, List.filter_cons, fsRead, h0, h1, h2] at ih ⊢
          simpa [h2] using ih

theorem mem_fsList_iff (fs : FS) (p : PyStr) :
    p ∈ fsList fs ↔ (fsRead fs p).isSome = true := by
  induction fs with
  | nil => simp [fsList, fsRead]
  | cons fc rest ih =>
    obtain ⟨f, c0⟩ := fc
    by_cases h0 : f = p
    · subst h0
      simp [fsList, fsRead]
    · simp [fsList, fsRead, h0, Ne.symm h0] at ih ⊢
      simpa using ih

/-! ## Claim C4: the path-prefixed line -/

/-- C4 counterexample: the line `evil/app.desktop:Name=x` is not discarded;
it contributes an entry to the assembled map. -/
theorem C4_counterexample :
    ¬get_appmenus_parse [pys "evil/app.desktop:Name=x"] = ([] : EntryMap) := by
  decide

/-- Whether a successful reconciliation run leaves a file `app.desktop` on
disk (`none` when the run fails). -/
def okHasAppFile : Except RunError (FS × List PyStr × List PyStr) → Option Bool
  | Except.ok r => some (fsRead r.1 (pys "app.desktop")).isSome
  | Except.error _ => none

/-- C4 (amended): `line_rx` is applied with `re.search`, which skips the
slash-bearing path prefix; the line `evil/app.desktop:Name=x` therefore
contributes exactly one entry, named `app` (not `evil/app`), with field
Name=x, and in service mode a launcher file `app.desktop` is created for
it. -/
theorem C4_prefix_skipped :
    get_appmenus_parse [pys "evil/app.desktop:Name=x"]
      = [(pys "app", [(pys "Name", pys "x")])] ∧
    okHasAppFile (process_appmenus_templates []
        (get_appmenus_parse [pys "evil/app.desktop:Name=x"])
        false false (fun _ => false))
      = some true := by
  exact ⟨by decide, by decide⟩

/-! ## Claim C9: the entry set is not immutable during the run -/

/-- The values dict returned by a successful `create_template`. -/
def okValues : Except RunError (FS × FieldMap × Bool) → Option FieldMap
  | Except.ok r => some r.2.1
  | Except.error _ => none

/-- C9 counterexample: `create_template` hands back a mutated field mapping
(the in-place `values["Categories"] = ... + "X-Qubes-VM;"` of line 247):
for a concrete entry with fields Name and Exec only, the dict afterwards
has a Categories key it did not have before. -/
theorem C9_counterexample :
    okValues (create_template [] (pys "app.desktop") (pys "app")
        [(pys "Name", pys "e"), (pys "Exec", pys "x")] true)
      = some [(pys "Name", pys "e"), (pys "Exec", pys "x"),
              (pys "Categories", pys "X-Qubes-VM;")] ∧
    ¬([(pys "Name", pys "e"), (pys "Exec", pys "x"),
       (pys "Categories", pys "X-Qubes-VM;")]
      = [(pys "Name", pys "e"), (pys "Exec", pys "x")]) := by
  exact ⟨by decide, by decide⟩

/-- `create_template` with its let-bindings inlined, for case analysis. -/
theorem create_template_eq (fs : FS) (path name : PyStr) (values : FieldMap)
    (legacy : Bool) :
    create_template fs path name values legacy =
      if ((if legacy then required_fields_legacy else required_fields).all
          (fun k => (fmLookup values k).isSome)) = true then
        if (!legacy && (name.contains ' ' || name.contains ';' ||
            name.contains '%')) = true then
          Except.error RunError.assertFailed
        else if (desktop_entry_for path name values legacy).2
            = (fsRead fs path).getD [] then
          Except.ok (fs, (desktop_entry_for path name values legacy).1, false)
        else
          Except.ok (fsWrite fs path (desktop_entry_for path name values legacy).2,
            (desktop_entry_for path name values legacy).1, true)
      else Except.ok (fs, values, false) := rfl

/-- C9 (amended): entries are not immutable during the reconciliation pass,
but the mutations are exactly these: `create_template` either leaves the
dict unchanged (skip) or updates only its Categories key (appending the
forced `X-Qubes-VM;`), every other key keeping its value; and the icon
pipeline touches at most the Icon key. -/
theorem C9_mutation_only_categories_or_icon :
    (∀ fs path name values legacy v1,
      okValues (create_template fs path name values legacy) = some v1 →
      (v1 = values ∨
        v1 = fmInsert values (pys "Categories")
          (((fmLookup values (pys "Categories")).getD []) ++ pys "X-Qubes-VM;")) ∧
      ∀ k, ¬k = pys "Categories" → fmLookup v1 k = fmLookup values k) ∧
    ∀ iconDrop nm vals k, ¬k = pys "Icon" →
      fmLookup (icon_adjust iconDrop nm vals) k = fmLookup vals k := by
  constructor
  · intro fs path name values legacy v1 h
    rw [create_template_eq] at h
    have main :
        (v1 = values ∨
          v1 = fmInsert values (pys "Categories")
            (((fmLookup values (pys "Categories")).getD []) ++ pys "X-Qubes-VM;")) := by
      by_cases hreq : ((if legacy then required_fields_legacy else required_fields).all
          (fun k => (fmLookup values k).isSome)) = true
      · rw [if_pos hreq] at h
        by_cases hassert : (!legacy && (name.contains ' ' || name.contains ';' ||
            name.contains '%')) = true
        · rw [if_pos hassert] at h
          simp [okValues] at h
        · rw [if_neg hassert] at h
          right
          by_cases hgate : (desktop_entry_for path name values legacy).2
              = (fsRead fs path).getD []
          · rw [if_pos hgate] at h
            simp only [okValues, Option.some.injEq] at h
            rw [← h]
            simp [desktop_entry_for, de_values2]
          · rw [if_neg hgate] at h
            simp only [okValues, Option.some.injEq] at h
            rw [← h]
            simp [desktop_entry_for, de_values2]
      · rw [if_neg hreq] at h
        simp only [okValues, Option.some.injEq] at h
        left
        exact h.symm
    refine ⟨main, ?_⟩
    intro k hk
    rcases main with h1 | h1 <;> subst h1
    · rfl
    · rw [fmLookup_fmInsert]
      rw [if_neg (fun hh => hk hh.symm)]
  · intro iconDrop nm vals k hk
    unfold icon_adjust
    split
    · exact fmLookup_fmErase_ne vals (pys "Icon") k hk
    · rfl

/-- Witness for C9's amended theorem at the concrete entry of the
counterexample: the mutated dict agrees with the original on the Name and
Exec keys and is the Categories insertion. -/
theorem C9_mutation_witness :
    ([(pys "Name", pys "e"), (pys "Exec", pys "x"),
      (pys "Categories", pys "X-Qubes-VM;")]
        = [(pys "Name", pys "e"), (pys "Exec", pys "x")] ∨
     [(pys "Name", pys "e"), (pys "Exec", pys "x"),
      (pys "Categories", pys "X-Qubes-VM;")]
        = fmInsert [(pys "Name", pys "e"), (pys "Exec", pys "x")]
            (pys "Categories")
            (((fmLookup [(pys "Name", pys "e"), (pys "Exec", pys "x")]
                (pys "Categories")).getD []) ++ pys "X-Qubes-VM;")) ∧
    fmLookup [(pys "Name", pys "e"), (pys "Exec", pys "x"),
      (pys "Categories", pys "X-Qubes-VM;")] (pys "Exec")
      = fmLookup [(pys "Name", pys "e"), (pys "Exec", pys "x")] (pys "Exec") := by
  have h := (C9_mutation_only_categories_or_icon.1 [] (pys "app.desktop")
    (pys "app") [(pys "Name", pys "e"), (pys "Exec", pys "x")] true
    [(pys "Name", pys "e"), (pys "Exec", pys "x"),
     (pys "Categories", pys "X-Qubes-VM;")] (by decide))
  exact ⟨h.1, h.2 (pys "Exec") (by decide)⟩

/-! ## Claim C3: category filtering -/

theorem splitOnChar_ne_nil (sep : Char) (s : PyStr) : ¬splitOnChar sep s = [] := by
  cases s with
  | nil => simp [splitOnChar]
  | cons c rest =>
    simp only [splitOnChar]
    cases h : splitOnChar sep rest with
    | nil => simp
    | cons t ts => by_cases hc : c = sep <;> simp [hc]

theorem splitOnChar_head_tail (sep : Char) (s : PyStr) :
    ∃ t ts, splitOnChar sep s = t :: ts := by
  cases h : splitOnChar sep s with
  | nil => exact absurd h (splitOnChar_ne_nil sep s)
  | cons a b => exact ⟨a, b, rfl⟩

theorem splitOnChar_cons_eq (sep c : Char) (rest : PyStr) (t : PyStr)
    (ts : List PyStr) (h : splitOnChar sep rest = t :: ts) :
    splitOnChar sep (c :: rest)
      = if c = sep then [] :: t :: ts else (c :: t) :: ts := by
  simp only [splitOnChar, h]

theorem sep_not_mem_splitOnChar (sep : Char) (s : PyStr) :
    ∀ t ∈ splitOnChar sep s, ¬sep ∈ t := by
  induction s with
  | nil =>
    intro t ht
    simp [splitOnChar] at ht
    subst ht
    simp
  | cons c rest ih =>
    intro t ht
    obtain ⟨t0, ts, h⟩ := splitOnChar_head_tail sep rest
    rw [splitOnChar_cons_eq sep c rest t0 ts h] at ht
    by_cases hc : c = sep
    · rw [if_pos hc] at ht
      rcases List.mem_cons.mp ht with ht1 | ht1
      · subst ht1
        simp
      · exact ih t (by rw [h]; exact ht1)
    · rw [if_neg hc] at ht
      rcases List.mem_cons.mp ht with ht1 | ht1
      · subst ht1
        intro hmem
        rcases List.mem_cons.mp hmem with h1 | h1
        · exact hc h1.symm
        · exact ih t0 (by rw [h]; exact List.mem_cons_self t0 ts) h1
      · exact ih t (by rw [h]; exact List.mem_cons_of_mem t0 ht1)

theorem mem_of_mem_pyStrip (s : PyStr) (c : Char) (h : c ∈ pyStrip s) : c ∈ s := by
  unfold pyStrip at h
  rw [List.mem_reverse] at h
  have h2 : c ∈ (s.dropWhile pyIsSpace).reverse :=
    (List.dropWhile_sublist _).subset h
  rw [List.mem_reverse] at h2
  exact (List.dropWhile_sublist _).subset h2

theorem splitOnChar_append_cons (sep : Char) (x y : PyStr) (hx : ¬sep ∈ x) :
    splitOnChar sep (x ++ sep :: y) = x :: splitOnChar sep y := by
  induction x with
  | nil =>
    obtain ⟨t, ts, h⟩ := splitOnChar_head_tail sep y
    rw [List.nil_append, splitOnChar_cons_eq sep sep y t ts h, if_pos rfl, h]
  | cons c x' ih =>
    have hc : ¬c = sep := fun hh => hx (by rw [hh]; exact List.mem_cons_self sep x')
    have hx' : ¬sep ∈ x' := fun hh => hx (List.mem_cons_of_mem c hh)
    rw [List.cons_append,
      splitOnChar_cons_eq sep c (x' ++ sep :: y) x' (splitOnChar sep y) (ih hx'),
      if_neg hc]

theorem splitOnChar_joinWith (sep : Char) (l : List PyStr) (suffix : PyStr)
    (hl : ∀ t ∈ l, ¬sep ∈ t) :
    splitOnChar sep (joinWith [sep] l ++ sep :: suffix)
      = (if l = [] then [([] : PyStr)] else l) ++ splitOnChar sep suffix := by
  induction l with
  | nil =>
    obtain ⟨t, ts, h⟩ := splitOnChar_head_tail sep suffix
    simp only [joinWith, List.nil_append, if_pos rfl]
    rw [splitOnChar_cons_eq sep sep suffix t ts h, if_pos rfl, h]
    simp
  | cons t l' ih =>
    cases l' with
    | nil =>
      simp only [joinWith]
      rw [splitOnChar_append_cons sep t suffix (hl t (List.mem_cons_self t []))]
      simp
    | cons t2 l'' =>
      have hj : joinWith [sep] (t :: t2 :: l'') = t ++ sep :: joinWith [sep] (t2 :: l'') := by
        simp [joinWith]
      have htail : ∀ u ∈ t2 :: l'', ¬sep ∈ u :=
        fun u hu => hl u (List.mem_cons_of_mem t hu)
      rw [hj, List.append_assoc, List.cons_append,
        splitOnChar_append_cons sep t _ (hl t (List.mem_cons_self t _)), ih htail]
      simp

theorem pystr_contains_iff (l : List PyStr) (t : PyStr) :
    l.contains t = true ↔ t ∈ l := by
  induction l with
  | nil => simp
  | cons a l ih => simp [List.contains_cons] at ih ⊢

/-- C3: for every raw Categories value, the rendered Categories output
(the sanitized value with the forced `X-Qubes-VM;` appended by
`create_template`) splits on `;` into some whitelisted tokens in their
input order (a sublist of the stripped input tokens), then the forced
category `X-Qubes-VM`, then the empty piece of the trailing `;`; and on
`Utility;BogusCat;Office` it is exactly `Utility;Office;X-Qubes-VM;`; and
the renderer stores exactly this value in the Categories key. -/
theorem C3_categories_filtering :
    (∀ raw : PyStr, ∃ kept : List PyStr,
      kept.Sublist (((splitOnChar ';' raw).filter (fun t => ¬t = [])).map pyStrip) ∧
      (∀ t ∈ kept, t ∈ CATEGORIES_WHITELIST) ∧
      splitOnChar ';' (sanitise_categories raw ++ pys "X-Qubes-VM;")
        = (if kept = [] then [([] : PyStr)] else kept)
            ++ [pys "X-Qubes-VM", ([] : PyStr)]) ∧
    sanitise_categories (pys "Utility;BogusCat;Office") ++ pys "X-Qubes-VM;"
      = pys "Utility;Office;X-Qubes-VM;" ∧
    (∀ path name values legacy raw,
      fmLookup values (pys "Categories") = some (sanitise_categories raw) →
      fmLookup (desktop_entry_for path name values legacy).1 (pys "Categories")
        = some (sanitise_categories raw ++ pys "X-Qubes-VM;")) := by
  refine ⟨?_, by decide, ?_⟩
  · intro raw
    refine ⟨(((splitOnChar ';' raw).filter (fun t => ¬t = [])).map pyStrip).filter
      (fun c => CATEGORIES_WHITELIST.contains c), List.filter_sublist _, ?_, ?_⟩
    · intro t ht
      exact (pystr_contains_iff _ _).mp (List.mem_filter.mp ht).2
    · have hnosep : ∀ t ∈ (((splitOnChar ';' raw).filter
          (fun t => ¬t = [])).map pyStrip).filter
          (fun c => CATEGORIES_WHITELIST.contains c), ¬(';') ∈ t := by
        intro t ht
        have h1 := (List.mem_filter.mp ht).1
        rcases List.mem_map.mp h1 with ⟨u, hu, hut⟩
        have h2 := (List.mem_filter.mp hu).1
        intro hsep
        exact sep_not_mem_splitOnChar ';' raw u h2
          (mem_of_mem_pyStrip u ';' (hut ▸ hsep))
      have hsan : sanitise_categories raw ++ pys "X-Qubes-VM;"
          = joinWith [';'] ((((splitOnChar ';' raw).filter
              (fun t => ¬t = [])).map pyStrip).filter
              (fun c => CATEGORIES_WHITELIST.contains c))
            ++ (';') :: pys "X-Qubes-VM;" := by
        simp only [sanitise_categories, List.append_assoc]
        rfl
      rw [hsan, splitOnChar_joinWith ';' _ _ hnosep]
      have : splitOnChar ';' (pys "X-Qubes-VM;") = [pys "X-Qubes-VM", []] := by decide
      rw [this]
  · intro path name values legacy raw h
    simp only [desktop_entry_for, de_values2]
    rw [fmLookup_fmInsert, if_pos rfl, h]
    rfl

/-- Witness for C3 at the spec's example input and a concrete renderer
call. -/
theorem C3_categories_witness :
    (∃ kept : List PyStr,
      kept.Sublist (((splitOnChar ';' (pys "Utility;BogusCat;Office")).filter
        (fun t => ¬t = [])).map pyStrip) ∧
      (∀ t ∈ kept, t ∈ CATEGORIES_WHITELIST) ∧
      splitOnChar ';' (sanitise_categories (pys "Utility;BogusCat;Office")
          ++ pys "X-Qubes-VM;")
        = (if kept = [] then [([] : PyStr)] else kept)
            ++ [pys "X-Qubes-VM", ([] : PyStr)]) ∧
    fmLookup (desktop_entry_for (pys "app2.desktop") (pys "app2")
        [(pys "Categories", pys "Utility;Office;")] true).1 (pys "Categories")
      = some (sanitise_categories (pys "Utility;BogusCat;Office")
          ++ pys "X-Qubes-VM;") := by
  exact ⟨C3_categories_filtering.1 (pys "Utility;BogusCat;Office"),
    C3_categories_filtering.2.2 (pys "app2.desktop") (pys "app2")
      [(pys "Categories", pys "Utility;Office;")] true
      (pys "Utility;BogusCat;Office") (by decide)⟩

/-! ## Claims C2 and C10: the bounded line reader -/

theorem read_stdin_loop_eq (n : Nat) (input : List PyStr)
    (h : ∀ l ∈ input, ¬l = []) :
    read_stdin_loop n input = ((input.take n).map pyStrip, n - input.length) := by
  induction n generalizing input with
  | zero => simp [read_stdin_loop]
  | succ n ih =>
    cases input with
    | nil => simp [read_stdin_loop]
    | cons l ls =>
      have hl : ¬l = [] := h l (List.mem_cons_self l ls)
      have hls : ∀ x ∈ ls, ¬x = [] := fun x hx => h x (List.mem_cons_of_mem l hx)
      simp only [read_stdin_loop, if_neg hl, ih ls hls, List.take_succ_cons,
        List.map_cons, List.length_cons]
      simp [Nat.succ_sub_succ]

theorem get_appmenus_stdin_of_lt (input : List PyStr)
    (h : ∀ l ∈ input, ¬l = []) (hlen : input.length < appmenus_line_count) :
    get_appmenus_stdin input = Except.ok (input.map pyStrip) := by
  have h2 : ¬(appmenus_line_count - input.length = 0) := by omega
  have h3 : input.take appmenus_line_count = input :=
    List.take_of_length_le (Nat.le_of_lt hlen)
  simp [get_appmenus_stdin, read_stdin_loop_eq _ _ h, h2, h3]

theorem get_appmenus_stdin_of_le (input : List PyStr)
    (h : ∀ l ∈ input, ¬l = []) (hlen : appmenus_line_count ≤ input.length) :
    get_appmenus_stdin input = Except.error RunError.limitExceeded := by
  simp [get_appmenus_stdin, read_stdin_loop_eq _ _ h,
    Nat.sub_eq_zero_of_le hlen]

/-- C2 counterexample: a source exhausted after exactly the line-count cap
(100000 lines, then EOF) does not succeed: the loop leaves the remaining
limit at zero and `get_appmenus` raises "Line count limit exceeded". -/
theorem C2_counterexample :
    get_appmenus_stdin (List.replicate appmenus_line_count (pys "a"))
      = Except.error RunError.limitExceeded := by
  apply get_appmenus_stdin_of_le
  · intro l hl
    rw [List.eq_of_mem_replicate hl]
    intro hfalse
    cases hfalse
  · rw [List.length_replicate]

/-- C2 (amended): the stdin reader succeeds, returning every line stripped,
exactly when the source holds strictly fewer lines than the cap; any
source with at least 100000 lines — including exactly 100000 — fails with
the "Line count limit exceeded" error, and in that case the whole run
aborts before any launcher file is written (the pipeline returns the error
and produces no filesystem). -/
theorem C2_line_limit :
    ∀ input : List PyStr, (∀ l ∈ input, ¬l = []) →
      (input.length < appmenus_line_count →
        get_appmenus_stdin input = Except.ok (input.map pyStrip)) ∧
      (appmenus_line_count ≤ input.length →
        get_appmenus_stdin input = Except.error RunError.limitExceeded ∧
        ∀ fs legacy vmIsAppVM iconDrop,
          sync_appmenus_stdin input fs legacy vmIsAppVM iconDrop
            = Except.error RunError.limitExceeded) := by
  intro input h
  refine ⟨get_appmenus_stdin_of_lt input h, fun hlen => ⟨?_, ?_⟩⟩
  · exact get_appmenus_stdin_of_le input h hlen
  · intro fs legacy vmIsAppVM iconDrop
    unfold sync_appmenus_stdin
    rw [get_appmenus_stdin_of_le input h hlen]

/-- Witness for C2's amended theorem: a one-line source succeeds with the
line returned; a source of exactly 100000 lines makes the whole stdin
pipeline fail with the limit error. -/
theorem C2_line_limit_witness :
    get_appmenus_stdin [pys "a"] = Except.ok [pys "a"] ∧
    sync_appmenus_stdin (List.replicate appmenus_line_count (pys "b"))
        [] true true (fun _ => false)
      = Except.error RunError.limitExceeded := by
  constructor
  · have h := (C2_line_limit [pys "a"]
      (by intro l hl; simp at hl; subst hl; intro hf; cases hf)).1
      (by rw [show ([pys "a"] : List PyStr).length = 1 from rfl]; decide)
    rw [h]
    rfl
  · exact ((C2_line_limit (List.replicate appmenus_line_count (pys "b"))
      (by intro l hl; rw [List.eq_of_mem_replicate hl]; intro hf; cases hf)).2
      (by rw [List.length_replicate])).2 [] true true (fun _ => false)

theorem read_remote_loop_eq (n : Nat) (input : List (List Nat))
    (h : ∀ b ∈ input, ¬b = []) :
    read_remote_loop n input
      = ((input.take n).filterMap (fun b => (decode_ascii b).map pyStrip),
         n - input.length) := by
  induction n generalizing input with
  | zero => simp [read_remote_loop]
  | succ n ih =>
    cases input with
    | nil => simp [read_remote_loop]
    | cons b bs =>
      have hb : ¬b = [] := h b (List.mem_cons_self b bs)
      have hbs : ∀ x ∈ bs, ¬x = [] := fun x hx => h x (List.mem_cons_of_mem b hx)
      simp only [read_remote_loop, if_neg hb, ih bs hbs, List.take_succ_cons,
        List.filterMap_cons, List.length_cons]
      cases hd : decode_ascii b <;> simp [Nat.succ_sub_succ]

/-- C10: in the remote-service branch, a line that fails strict ASCII
decoding is dropped from the result (the returned list holds only the
decoded, stripped lines) but still consumes one unit of the line-count
budget: with a zero exit status, any source of at least 100000 nonempty
lines — decodable or not — fails with "Line count limit exceeded", while a
shorter source succeeds with exactly the decodable lines. -/
theorem C10_nondecodable_lines_count :
    ∀ input : List (List Nat), (∀ b ∈ input, ¬b = []) →
      (input.length < appmenus_line_count →
        get_appmenus_remote input 0
          = Except.ok (input.filterMap (fun b => (decode_ascii b).map pyStrip))) ∧
      (appmenus_line_count ≤ input.length →
        get_appmenus_remote input 0 = Except.error RunError.limitExceeded) := by
  intro input h
  constructor
  · intro hlen
    have h2 : ¬(appmenus_line_count - input.length = 0) := by omega
    have h3 : input.take appmenus_line_count = input :=
      List.take_of_length_le (Nat.le_of_lt hlen)
    simp [get_appmenus_remote, read_remote_loop_eq _ _ h, h2, h3]
  · intro hlen
    simp [get_appmenus_remote, read_remote_loop_eq _ _ h,
      Nat.sub_eq_zero_of_le hlen]

/-- Witness for C10: a two-line source whose first line holds the byte 200
returns only the second (decoded) line; a source of 100000 such
non-decodable lines by itself triggers the limit error. -/
theorem C10_nondecodable_witness :
    get_appmenus_remote [[200], [65]] 0 = Except.ok [[Char.ofNat 65]] ∧
    get_appmenus_remote (List.replicate appmenus_line_count [200]) 0
      = Except.error RunError.limitExceeded := by
  constructor
  · have h := (C10_nondecodable_lines_count [[200], [65]]
      (by intro b hb
          simp only [List.mem_cons, List.not_mem_nil, or_false] at hb
          rcases hb with h1 | h1 <;> subst h1 <;> intro hf <;> cases hf)).1
      (by rw [show ([[200], [65]] : List (List Nat)).length = 2 from rfl]; decide)
    rw [h]
    rfl
  · exact (C10_nondecodable_lines_count (List.replicate appmenus_line_count [200])
      (by intro b hb; rw [List.eq_of_mem_replicate hb]; intro hf; cases hf)).2
      (by rw [List.length_replicate])


/-! ## Claims C1 and C7: the template renderer -/

theorem append_ne_nil_left {a : Type} (x y : List a) (h : ¬x = []) :
    ¬(x ++ y) = [] := by
  cases x with
  | nil => exact absurd rfl h
  | cons c cs => simp

theorem desktop_entry_ne_nil (path name : PyStr) (values : FieldMap)
    (legacy : Bool) : ¬(desktop_entry_for path name values legacy).2 = [] := by
  simp only [desktop_entry_for]
  apply append_ne_nil_left
  apply append_ne_nil_left
  apply append_ne_nil_left
  apply append_ne_nil_left
  simp only [de_header]
  apply append_ne_nil_left
  apply append_ne_nil_left
  apply append_ne_nil_left
  decide

/-- A successful, non-skipped `create_template`: the returned values dict is
the mutated one, and afterwards the file at `path` holds exactly the
rendered body (whether or not a write was needed). -/
theorem create_template_renders (fs : FS) (path name : PyStr)
    (values : FieldMap) (legacy : Bool)
    (hreq : ((if legacy then required_fields_legacy else required_fields).all
        (fun k => (fmLookup values k).isSome)) = true)
    (hassert : (!legacy && (name.contains ' ' || name.contains ';' ||
        name.contains '%')) = false) :
    ∃ fs1 w, create_template fs path name values legacy
        = Except.ok (fs1, (desktop_entry_for path name values legacy).1, w) ∧
      fsRead fs1 path = some (desktop_entry_for path name values legacy).2 := by
  rw [create_template_eq, if_pos hreq,
    if_neg (by rw [hassert]; exact Bool.false_ne_true)]
  by_cases hgate : (desktop_entry_for path name values legacy).2
      = (fsRead fs path).getD []
  · refine ⟨fs, false, by rw [if_pos hgate], ?_⟩
    cases hfs : fsRead fs path with
    | none =>
      rw [hfs, Option.getD_none] at hgate
      exact absurd hgate (desktop_entry_ne_nil path name values legacy)
    | some ex =>
      rw [hfs, Option.getD_some] at hgate
      rw [hgate]
  · refine ⟨fsWrite fs path (desktop_entry_for path name values legacy).2, true,
      by rw [if_neg hgate], ?_⟩
    rw [fsRead_fsWrite]
    simp

/-- C1: in legacy mode, for every entry whose fields contain Name and Exec,
the rendered launcher body consists of some prefix followed by exactly the
`Exec=qvm-run -q -a %VMNAME% -- ` line with the shell-quoted Exec value
and the parallel `X-Qubes-DispvmExec` line with the same quoted value (the
only path by which the Exec value reaches the body is through
`shlex_quote`); in particular the Exec line for `/usr/bin/editor --new` is
`Exec=qvm-run -q -a %VMNAME% -- '/usr/bin/editor --new'`. -/
theorem C1_legacy_exec_quoting :
    (∀ fs path name values n e,
      fmLookup values (pys "Name") = some n →
      fmLookup values (pys "Exec") = some e →
      ∃ pre fs1 v1 w,
        create_template fs path name values true = Except.ok (fs1, v1, w) ∧
        fsRead fs1 path = some (pre ++
          (pys "Exec=qvm-run -q -a %VMNAME% -- " ++ shlex_quote e ++ pys "\n" ++
           (pys "X-Qubes-DispvmExec=qvm-run -q -a --dispvm=%VMNAME% -- "
             ++ shlex_quote e ++ pys "\n")))) ∧
    pys "Exec=qvm-run -q -a %VMNAME% -- " ++ shlex_quote (pys "/usr/bin/editor --new")
      = pys "Exec=qvm-run -q -a %VMNAME% -- '/usr/bin/editor --new'" := by
  constructor
  · intro fs path name values n e hn he
    have hreq : ((if true then required_fields_legacy else required_fields).all
        (fun k => (fmLookup values k).isSome)) = true := by
      simp [required_fields_legacy, hn, he]
    have hassert : (!true && (name.contains ' ' || name.contains ';' ||
        name.contains '%')) = false := by simp
    obtain ⟨fs1, w, hct, hread⟩ :=
      create_template_renders fs path name values true hreq hassert
    refine ⟨de_header name ++ de_icon path values ++ de_names values
      ++ de_tags (de_values2 values), fs1, _, w, hct, ?_⟩
    rw [hread]
    have hexec : fmLookup (de_values2 values) (pys "Exec") = some e := by
      rw [de_values2, fmLookup_fmInsert, if_neg (by decide), he]
    simp only [desktop_entry_for, de_exec, if_true, hexec, Option.getD_some]
    simp [List.append_assoc]
  · decide

/-- Witness for C1 at the spec's example entry. -/
theorem C1_legacy_exec_witness :
    ∃ pre fs1 v1 w,
      create_template [] (pys "app1.desktop") (pys "app1")
          [(pys "Name", pys "Editor"), (pys "Exec", pys "/usr/bin/editor --new")]
          true
        = Except.ok (fs1, v1, w) ∧
      fsRead fs1 (pys "app1.desktop") = some (pre ++
        (pys "Exec=qvm-run -q -a %VMNAME% -- "
          ++ shlex_quote (pys "/usr/bin/editor --new") ++ pys "\n" ++
         (pys "X-Qubes-DispvmExec=qvm-run -q -a --dispvm=%VMNAME% -- "
          ++ shlex_quote (pys "/usr/bin/editor --new") ++ pys "\n"))) :=
  C1_legacy_exec_quoting.1 [] (pys "app1.desktop") (pys "app1")
    [(pys "Name", pys "Editor"), (pys "Exec", pys "/usr/bin/editor --new")]
    (pys "Editor") (pys "/usr/bin/editor --new") (by decide) (by decide)

/-- C7: the required-field policy: legacy mode requires Name and Exec,
service mode requires only Name.  When a required field is missing,
`create_template` returns with no write and no mutation (after a stderr
warning), and the per-entry loop proceeds with the remaining entries
exactly as if the entry were absent. -/
theorem C7_required_field_policy :
    ∀ fs path name values legacy,
      ((legacy = true ∧ ((fmLookup values (pys "Name")).isNone = true ∨
          (fmLookup values (pys "Exec")).isNone = true)) ∨
       (legacy = false ∧ (fmLookup values (pys "Name")).isNone = true)) →
      create_template fs path name values legacy = Except.ok (fs, values, false) ∧
      ∀ iconDrop rest,
        process_entries iconDrop legacy ((name, values) :: rest) fs
          = process_entries iconDrop legacy rest fs := by
  intro fs path name values legacy hmiss
  have hreq : ∀ vals2 : FieldMap,
      fmLookup vals2 (pys "Name") = fmLookup values (pys "Name") →
      fmLookup vals2 (pys "Exec") = fmLookup values (pys "Exec") →
      ((if legacy then required_fields_legacy else required_fields).all
        (fun k => (fmLookup vals2 k).isSome)) = false := by
    intro vals2 h1 h2
    rcases hmiss with ⟨hl, hm | hm⟩ | ⟨hl, hm⟩ <;> subst hl <;>
      simp [required_fields_legacy, required_fields, h1, h2] <;>
      cases hx : fmLookup values (pys "Name") <;>
      cases hy : fmLookup values (pys "Exec") <;>
      simp [hx, hy] at hm ⊢
  constructor
  · rw [create_template_eq, if_neg (by simp [hreq values rfl rfl])]
  · intro iconDrop rest
    have hia1 : fmLookup (icon_adjust iconDrop name values) (pys "Name")
        = fmLookup values (pys "Name") := by
      unfold icon_adjust
      split
      · exact fmLookup_fmErase_ne values (pys "Icon") (pys "Name") (by decide)
      · rfl
    have hia2 : fmLookup (icon_adjust iconDrop name values) (pys "Exec")
        = fmLookup values (pys "Exec") := by
      unfold icon_adjust
      split
      · exact fmLookup_fmErase_ne values (pys "Icon") (pys "Exec") (by decide)
      · rfl
    have hct : create_template fs (name ++ pys ".desktop") name
        (icon_adjust iconDrop name values) legacy
        = Except.ok (fs, icon_adjust iconDrop name values, false) := by
      rw [create_template_eq, if_neg (by simp [hreq _ hia1 hia2])]
    simp only [process_entries, hct]
    cases hrest : process_entries iconDrop legacy rest fs <;> simp


/-- Witness for C7: a legacy entry with Name but no Exec is skipped with no
write and no mutation, and the loop result equals that of the remaining
entries alone. -/
theorem C7_required_witness :
    create_template [] (pys "a.desktop") (pys "a") [(pys "Name", pys "n")] true
      = Except.ok ([], [(pys "Name", pys "n")], false) ∧
    process_entries (fun _ => false) true
        [(pys "a", [(pys "Name", pys "n")]),
         (pys "b", [(pys "Name", pys "m"), (pys "Exec", pys "e")])] []
      = process_entries (fun _ => false) true
        [(pys "b", [(pys "Name", pys "m"), (pys "Exec", pys "e")])] [] := by
  have h := C7_required_field_policy [] (pys "a.desktop") (pys "a")
    [(pys "Name", pys "n")] true (Or.inl (And.intro rfl (Or.inr (by decide))))
  exact And.intro h.1
    (h.2 (fun _ => false) [(pys "b", [(pys "Name", pys "m"), (pys "Exec", pys "e")])])

/-! ## Claim C8: parsed entry names make the service-mode asserts pass -/

theorem findName_all_class (s : PyStr) :
    ∀ acc r, acc.all nameClassChar = true → findName acc s = some r →
      r.1.all nameClassChar = true := by
  induction s with
  | nil =>
    intro acc r hacc hf
    simp [findName] at hf
  | cons c rest ih =>
    intro acc r hacc hf
    simp only [findName] at hf
    by_cases hc : nameClassChar c = true
    · rw [if_pos hc] at hf
      cases ha : afterName rest with
      | some kv =>
        obtain ⟨k, v⟩ := kv
        rw [ha] at hf
        cases hf
        simp [List.all_append, hacc, hc]
      | none =>
        rw [ha] at hf
        exact ih (acc ++ [c]) r (by simp [List.all_append, hacc, hc]) hf
    · rw [if_neg hc] at hf
      cases hf

theorem line_rx_search_name_class (s : PyStr) :
    ∀ r, line_rx_search s = some r → r.1.all nameClassChar = true := by
  induction s with
  | nil =>
    intro r h
    simp [line_rx_search] at h
  | cons c rest ih =>
    intro r h
    simp only [line_rx_search] at h
    cases hf : findName [] (c :: rest) with
    | some r2 =>
      rw [hf] at h
      have h2 : r2 = r := Option.some.inj h
      subst h2
      exact findName_all_class (c :: rest) [] r2 rfl hf
    | none =>
      rw [hf] at h
      exact ih r h

theorem emLookup_emSetKey_ne (m : EntryMap) (nm k v n : PyStr) (h : ¬n = nm) :
    emLookup (emSetKey m nm k v) n = emLookup m n := by
  induction m with
  | nil => simp [emSetKey, emLookup, Ne.symm h]
  | cons e rest ih =>
    obtain ⟨n0, fm0⟩ := e
    by_cases h0 : n0 = nm
    · subst h0
      simp [emSetKey, emLookup, Ne.symm h]
    · simp [emSetKey, emLookup, h0, ih]

theorem parse_step_names (m : EntryMap) (line : PyStr) (n : PyStr)
    (fm : FieldMap) (h : emLookup (parse_step m line) n = some fm) :
    (∃ fm2, emLookup m n = some fm2) ∨ n.all nameClassChar = true := by
  simp only [parse_step] at h
  split at h
  · exact Or.inl ⟨fm, h⟩
  · split at h
    · exact Or.inl ⟨fm, h⟩
    · next nm k g3 heq =>
      split at h
      · exact Or.inl ⟨fm, h⟩
      · split at h
        · by_cases hn : n = nm
          · subst hn
            exact Or.inr (line_rx_search_name_class line _ heq)
          · rw [emLookup_emSetKey_ne m nm k _ n hn] at h
            exact Or.inl ⟨fm, h⟩
        · exact Or.inl ⟨fm, h⟩

theorem get_appmenus_parse_names (lines : List PyStr) :
    ∀ n fm, emLookup (get_appmenus_parse lines) n = some fm →
      n.all nameClassChar = true := by
  unfold get_appmenus_parse
  suffices h : ∀ m : EntryMap,
      (∀ n fm, emLookup m n = some fm → n.all nameClassChar = true) →
      ∀ n fm, emLookup (lines.foldl parse_step m) n = some fm →
        n.all nameClassChar = true by
    refine h [] ?_
    intro n fm hh
    simp [emLookup] at hh
  induction lines with
  | nil =>
    intro m hm
    simpa using hm
  | cons l ls ih =>
    intro m hm
    simp only [List.foldl_cons]
    apply ih
    intro n fm h
    rcases parse_step_names m l n fm h with ⟨fm2, h2⟩ | h2
    · exact hm n fm2 h2
    · exact h2

theorem char_contains_iff (l : List Char) (c : Char) :
    l.contains c = true ↔ c ∈ l := by
  induction l with
  | nil => simp
  | cons a l ih => simp [List.contains_cons] at ih ⊢

theorem contains_eq_false_of_all_class (s : PyStr) (c : Char)
    (hall : s.all nameClassChar = true) (hc : nameClassChar c = false) :
    s.contains c = false := by
  cases hcon : s.contains c with
  | false => rfl
  | true =>
    have hmem : c ∈ s := (char_contains_iff s c).mp hcon
    have := (List.all_eq_true.mp hall) c hmem
    rw [hc] at this
    cases this

/-- C8: every entry name in the assembled map comes from the structured
pattern `[a-zA-Z0-9._-]+`, so it holds no space, `;`, `%`, `/` or NUL; in
particular the defensive `assert` statements of the service-mode renderer
(and of the parser) can never fail: `create_template` in service mode
never returns the assertion error for such a name. -/
theorem C8_parsed_names_service_safe :
    ∀ lines name fm,
      emLookup (get_appmenus_parse lines) name = some fm →
      name.all nameClassChar = true ∧
      name.contains ' ' = false ∧ name.contains ';' = false ∧
      name.contains '%' = false ∧ name.contains '/' = false ∧
      name.contains (Char.ofNat 0) = false ∧
      ∀ fs path values, ¬create_template fs path name values false
          = Except.error RunError.assertFailed := by
  intro lines name fm h
  have hall := get_appmenus_parse_names lines name fm h
  have hsp := contains_eq_false_of_all_class name ' ' hall (by decide)
  have hsemi := contains_eq_false_of_all_class name ';' hall (by decide)
  have hpct := contains_eq_false_of_all_class name '%' hall (by decide)
  refine ⟨hall, hsp, hsemi, hpct,
    contains_eq_false_of_all_class name '/' hall (by decide),
    contains_eq_false_of_all_class name (Char.ofNat 0) hall (by decide), ?_⟩
  intro fs path values
  rw [create_template_eq]
  by_cases hreq : ((if false then required_fields_legacy else required_fields).all
      (fun k => (fmLookup values k).isSome)) = true
  · rw [if_pos hreq]
    rw [if_neg (by simp only [hsp, hsemi, hpct]; decide)]
    by_cases hgate : (desktop_entry_for path name values false).2
        = (fsRead fs path).getD []
    · rw [if_pos hgate]
      intro hx
      cases hx
    · rw [if_neg hgate]
      intro hx
      cases hx
  · rw [if_neg hreq]
    intro hx
    cases hx

/-- Witness for C8 at a concrete parsed line and a concrete service-mode
render. -/
theorem C8_service_safe_witness :
    (pys "app").all nameClassChar = true ∧
    (pys "app").contains ' ' = false ∧
    ¬create_template [] (pys "app.desktop") (pys "app")
        [(pys "Name", pys "x")] false
      = Except.error RunError.assertFailed := by
  have h := C8_parsed_names_service_safe [pys "app.desktop:Name=x"] (pys "app")
    [(pys "Name", pys "x")] (by decide)
  exact And.intro h.1 (And.intro h.2.1
    (h.2.2.2.2.2.2 [] (pys "app.desktop") [(pys "Name", pys "x")]))

/-! ## Claim C6: garbage collection of stale launchers -/

theorem gc_fold_read (hqs : Bool) (names : List PyStr) (files : List PyStr)
    (fs : FS) (p : PyStr) :
    fsRead (gc_fold hqs names files fs).1 p
      = if p ∈ files ∧ gc_should_delete hqs names p = true then none
        else fsRead fs p := by
  induction files generalizing fs with
  | nil => simp [gc_fold]
  | cons f fl ih =>
    simp only [gc_fold]
    by_cases hdel : gc_should_delete hqs names f = true
    · rw [if_pos hdel]
      simp only []
      rw [ih, fsRead_fsDelete]
      by_cases hp : p = f
      · subst hp
        simp [hdel]
      · simp [hp]
    · rw [if_neg hdel]
      rw [ih]
      by_cases hp : p = f
      · subst hp
        simp [hdel]
      · simp [hp]

theorem create_template_fs (fs : FS) (path name : PyStr) (values : FieldMap)
    (legacy : Bool) (fs1 : FS) (v1 : FieldMap) (w : Bool)
    (h : create_template fs path name values legacy = Except.ok (fs1, v1, w)) :
    fs1 = fs ∨ fs1 = fsWrite fs path (desktop_entry_for path name values legacy).2 := by
  rw [create_template_eq] at h
  by_cases hreq : ((if legacy then required_fields_legacy else required_fields).all
      (fun k => (fmLookup values k).isSome)) = true
  · rw [if_pos hreq] at h
    by_cases hassert : (!legacy && (name.contains ' ' || name.contains ';' ||
        name.contains '%')) = true
    · rw [if_pos hassert] at h
      exact Except.noConfusion h
    · rw [if_neg hassert] at h
      by_cases hgate : (desktop_entry_for path name values legacy).2
          = (fsRead fs path).getD []
      · rw [if_pos hgate] at h
        simp only [Except.ok.injEq, Prod.mk.injEq] at h
        exact Or.inl h.1.symm
      · rw [if_neg hgate] at h
        simp only [Except.ok.injEq, Prod.mk.injEq] at h
        exact Or.inr h.1.symm
  · rw [if_neg hreq] at h
    simp only [Except.ok.injEq, Prod.mk.injEq] at h
    exact Or.inl h.1.symm

theorem process_entries_read_isSome (iconDrop : PyStr → Bool) (legacy : Bool) :
    ∀ (entries : List (PyStr × FieldMap)) (fs fs2 : FS) (w : List PyStr)
      (p : PyStr),
      process_entries iconDrop legacy entries fs = Except.ok (fs2, w) →
      (fsRead fs p).isSome = true → (fsRead fs2 p).isSome = true := by
  intro entries
  induction entries with
  | nil =>
    intro fs fs2 w p h hp
    simp only [process_entries, Except.ok.injEq, Prod.mk.injEq] at h
    rw [← h.1]
    exact hp
  | cons e rest ih =>
    intro fs fs2 w p h hp
    obtain ⟨nm, vals⟩ := e
    simp only [process_entries] at h
    cases hct : create_template fs (nm ++ pys ".desktop") nm
        (icon_adjust iconDrop nm vals) legacy with
    | error e2 => simp only [hct] at h; exact Except.noConfusion h
    | ok r =>
      obtain ⟨fsA, v2, wrote⟩ := r
      simp only [hct] at h
      cases hpe : process_entries iconDrop legacy rest fsA with
      | error e2 => simp only [hpe] at h; exact Except.noConfusion h
      | ok r2 =>
        obtain ⟨fsB, w2⟩ := r2
        simp only [hpe] at h
        simp only [Except.ok.injEq, Prod.mk.injEq] at h
        rw [← h.1]
        have hpA : (fsRead fsA p).isSome = true := by
          rcases create_template_fs _ _ _ _ _ _ _ _ hct with h2 | h2 <;> subst h2
          · exact hp
          · rw [fsRead_fsWrite]
            by_cases hq : nm ++ pys ".desktop" = p
            · rw [if_pos hq]
              rfl
            · rw [if_neg hq]
              exact hp
        exact ih fsA fsB w2 p hpe hpA

/-- C6 counterexample: for an AppVM-style run (`has_qubes_start = false`)
the garbage-collection pass does remove `qubes-start.desktop`: with an
empty entry set and a directory holding only that file, the pass deletes
it. -/
theorem C6_counterexample :
    process_appmenus_templates [(qubes_start_desktop, pys "x")] [] true false
        (fun _ => false)
      = Except.ok ([], [], [qubes_start_desktop]) := by
  decide

/-- C6 (amended): after a successful reconciliation pass, every `.desktop`
file whose base name is not an entry of the (qubes-start-stripped)
EntrySet is gone from the directory — except `qubes-start.desktop`, which
is protected only when `has_qubes_start` holds (the VM is not an AppVM);
in that case it is present after the pass.  For `has_qubes_start = false`
the bootstrap file enjoys no protection (see the counterexample). -/
theorem C6_gc_deletion :
    ∀ fs appmenus legacy hqs iconDrop fs1 written deleted,
      process_appmenus_templates fs appmenus legacy hqs iconDrop
        = Except.ok (fs1, written, deleted) →
      (∀ f, endsDesktop f = true →
        ((emErase appmenus (pys "qubes-start")).map Prod.fst).contains
            (dropDesktopExt f) = false →
        (hqs = true → ¬f = qubes_start_desktop) →
        fsRead fs1 f = none) ∧
      (hqs = true → (fsRead fs1 qubes_start_desktop).isSome = true) := by
  intro fs appmenus legacy hqs iconDrop fs1 written deleted h
  simp only [process_appmenus_templates] at h
  cases hpe : process_entries iconDrop legacy (emErase appmenus (pys "qubes-start"))
      (if hqs && (fsRead fs qubes_start_desktop).isNone then
        (fsWrite fs qubes_start_desktop qubes_start_template_data,
         [qubes_start_desktop])
      else (fs, [])).1 with
  | error e2 => rw [hpe] at h; exact Except.noConfusion h
  | ok r =>
    obtain ⟨fsM, w⟩ := r
    rw [hpe] at h
    simp only [Except.ok.injEq, Prod.mk.injEq] at h
    obtain ⟨hfs1, hw, hd⟩ := h
    constructor
    · intro f hend hnotin hprot
      have hsd : gc_should_delete hqs
          ((emErase appmenus (pys "qubes-start")).map Prod.fst) f = true := by
        unfold gc_should_delete
        rw [hend, hnotin]
        cases hqs with
        | false => rfl
        | true =>
          have hne : (f == qubes_start_desktop) = false := by
            cases hb : f == qubes_start_desktop with
            | false => rfl
            | true => exact absurd (eq_of_beq hb) (hprot rfl)
          rw [hne]
          rfl
      rw [← hfs1, gc_fold_read]
      by_cases hmem : f ∈ fsList fsM
      · rw [if_pos ⟨hmem, hsd⟩]
      · rw [if_neg (fun hcon => hmem hcon.1)]
        cases hread : fsRead fsM f with
        | none => rfl
        | some c =>
          exact absurd ((mem_fsList_iff fsM f).mpr (by rw [hread]; rfl)) hmem
    · intro hq
      subst hq
      have hsd : gc_should_delete true
          ((emErase appmenus (pys "qubes-start")).map Prod.fst)
          qubes_start_desktop = false := by
        simp [gc_should_delete]
      rw [← hfs1, gc_fold_read,
        if_neg (fun hcon => absurd hcon.2 (by rw [hsd]; exact Bool.false_ne_true))]
      apply process_entries_read_isSome iconDrop legacy _ _ fsM w
        qubes_start_desktop hpe
      by_cases hb : (fsRead fs qubes_start_desktop).isNone = true
      · rw [if_pos (by rw [hb]; rfl)]
        simp only []
        rw [fsRead_fsWrite, if_pos rfl]
        rfl
      · rw [if_neg (by simp [hb])]
        simp only []
        cases hread : fsRead fs qubes_start_desktop with
        | none => rw [hread] at hb; exact absurd rfl hb
        | some c => rfl

/-- Witness for C6's amended theorem: with `has_qubes_start = true`, an
empty entry set and a stale `old.desktop`, the pass removes `old.desktop`
and leaves the bootstrap file in place. -/
theorem C6_gc_witness :
    fsRead [(qubes_start_desktop, qubes_start_template_data)]
        (pys "old.desktop") = none ∧
    (fsRead [(qubes_start_desktop, qubes_start_template_data)]
        qubes_start_desktop).isSome = true := by
  have h := C6_gc_deletion [(pys "old.desktop", pys "c")] [] true true
    (fun _ => false) [(qubes_start_desktop, qubes_start_template_data)]
    [qubes_start_desktop] [pys "old.desktop"] (by decide)
  exact And.intro
    (h.1 (pys "old.desktop") (by decide) (by decide) (fun _ => by decide))
    (h.2 rfl)

/-! ## Claim C5: content-gated writes and idempotence -/

theorem dropDesktopExt_append (n : PyStr) :
    dropDesktopExt (n ++ pys ".desktop") = n := by
  unfold dropDesktopExt
  rw [List.length_append, show (pys ".desktop").length = 8 from rfl,
    Nat.add_sub_cancel]
  exact List.take_left n (pys ".desktop")

theorem endsDesktop_append (n : PyStr) :
    endsDesktop (n ++ pys ".desktop") = true := by
  unfold endsDesktop
  rw [List.length_append, show (pys ".desktop").length = 8 from rfl,
    Nat.add_sub_cancel, List.drop_left]
  simp

theorem desktop_path_inj (n1 n2 : PyStr)
    (h : n1 ++ pys ".desktop" = n2 ++ pys ".desktop") : n1 = n2 :=
  List.append_cancel_right h

theorem create_template_ok_read (fs : FS) (path name : PyStr)
    (values : FieldMap) (legacy : Bool) (fs1 : FS) (v1 : FieldMap) (w : Bool)
    (h : create_template fs path name values legacy = Except.ok (fs1, v1, w))
    (hreq : ((if legacy then required_fields_legacy else required_fields).all
        (fun k => (fmLookup values k).isSome)) = true) :
    fsRead fs1 path = some ((desktop_entry_for path name values legacy).2) := by
  rw [create_template_eq, if_pos hreq] at h
  by_cases hassert : (!legacy && (name.contains ' ' || name.contains ';' ||
      name.contains '%')) = true
  · rw [if_pos hassert] at h
    exact Except.noConfusion h
  · rw [if_neg hassert] at h
    by_cases hgate : (desktop_entry_for path name values legacy).2
        = (fsRead fs path).getD []
    · rw [if_pos hgate] at h
      simp only [Except.ok.injEq, Prod.mk.injEq] at h
      rw [← h.1]
      cases hfs : fsRead fs path with
      | none =>
        rw [hfs, Option.getD_none] at hgate
        exact absurd hgate (desktop_entry_ne_nil path name values legacy)
      | some ex =>
        rw [hfs, Option.getD_some] at hgate
        rw [hgate]
    · rw [if_neg hgate] at h
      simp only [Except.ok.injEq, Prod.mk.injEq] at h
      rw [← h.1, fsRead_fsWrite, if_pos rfl]

theorem process_entries_frame (iconDrop : PyStr → Bool) (legacy : Bool) :
    ∀ (entries : List (PyStr × FieldMap)) (fs fs2 : FS) (w : List PyStr)
      (p : PyStr),
      process_entries iconDrop legacy entries fs = Except.ok (fs2, w) →
      (∀ e ∈ entries, ¬p = e.1 ++ pys ".desktop") →
      fsRead fs2 p = fsRead fs p := by
  intro entries
  induction entries with
  | nil =>
    intro fs fs2 w p h hp
    simp only [process_entries, Except.ok.injEq, Prod.mk.injEq] at h
    rw [← h.1]
  | cons e rest ih =>
    intro fs fs2 w p h hp
    obtain ⟨nm, vals⟩ := e
    simp only [process_entries] at h
    cases hct : create_template fs (nm ++ pys ".desktop") nm
        (icon_adjust iconDrop nm vals) legacy with
    | error e2 => simp only [hct] at h; exact Except.noConfusion h
    | ok r =>
      obtain ⟨fsA, v2, wrote⟩ := r
      simp only [hct] at h
      cases hpe : process_entries iconDrop legacy rest fsA with
      | error e2 => simp only [hpe] at h; exact Except.noConfusion h
      | ok r2 =>
        obtain ⟨fsB, w2⟩ := r2
        simp only [hpe] at h
        simp only [Except.ok.injEq, Prod.mk.injEq] at h
        rw [← h.1]
        have hstep : fsRead fsA p = fsRead fs p := by
          rcases create_template_fs _ _ _ _ _ _ _ _ hct with h2 | h2 <;> subst h2
          · rfl
          · rw [fsRead_fsWrite,
              if_neg (fun hq => hp (nm, vals) (List.mem_cons_self _ _) hq.symm)]
        rw [ih fsA fsB w2 p hpe
          (fun e2 he2 => hp e2 (List.mem_cons_of_mem _ he2)), hstep]

theorem process_entries_post (iconDrop : PyStr → Bool) (legacy : Bool) :
    ∀ (entries : List (PyStr × FieldMap)) (fs fs2 : FS) (w : List PyStr),
      (entries.map Prod.fst).Nodup →
      process_entries iconDrop legacy entries fs = Except.ok (fs2, w) →
      ∀ e ∈ entries,
        ((if legacy then required_fields_legacy else required_fields).all
          (fun k => (fmLookup (icon_adjust iconDrop e.1 e.2) k).isSome)) = true →
        fsRead fs2 (e.1 ++ pys ".desktop")
          = some ((desktop_entry_for (e.1 ++ pys ".desktop") e.1
              (icon_adjust iconDrop e.1 e.2) legacy).2) := by
  intro entries
  induction entries with
  | nil =>
    intro fs fs2 w hnd h e he
    exact absurd he (List.not_mem_nil e)
  | cons e0 rest ih =>
    intro fs fs2 w hnd h e he hereq
    obtain ⟨nm, vals⟩ := e0
    simp only [process_entries] at h
    cases hct : create_template fs (nm ++ pys ".desktop") nm
        (icon_adjust iconDrop nm vals) legacy with
    | error e2 => simp only [hct] at h; exact Except.noConfusion h
    | ok r =>
      obtain ⟨fsA, v2, wrote⟩ := r
      simp only [hct] at h
      cases hpe : process_entries iconDrop legacy rest fsA with
      | error e2 => simp only [hpe] at h; exact Except.noConfusion h
      | ok r2 =>
        obtain ⟨fsB, w2⟩ := r2
        simp only [hpe] at h
        simp only [Except.ok.injEq, Prod.mk.injEq] at h
        rcases List.mem_cons.mp he with he1 | he1
        · subst he1
          rw [← h.1]
          have hA : fsRead fsA (nm ++ pys ".desktop")
              = some ((desktop_entry_for (nm ++ pys ".desktop") nm
                  (icon_adjust iconDrop nm vals) legacy).2) :=
            create_template_ok_read _ _ _ _ _ _ _ _ hct hereq
          have hframe : fsRead fsB (nm ++ pys ".desktop")
              = fsRead fsA (nm ++ pys ".desktop") := by
            apply process_entries_frame iconDrop legacy rest fsA fsB w2 _ hpe
            intro e2 he2 hq
            have hmem : e2.1 ∈ rest.map Prod.fst := List.mem_map_of_mem _ he2
            have heq2 : nm = e2.1 := desktop_path_inj _ _ hq
            rw [List.map_cons, List.nodup_cons] at hnd
            exact hnd.1 (heq2 ▸ hmem)
          exact hframe.trans hA
        · rw [← h.1]
          rw [List.map_cons, List.nodup_cons] at hnd
          exact ih fsA fsB w2 hnd.2 hpe e he1 hereq

theorem process_entries_ok_names (iconDrop : PyStr → Bool) (legacy : Bool) :
    ∀ (entries : List (PyStr × FieldMap)) (fs fs2 : FS) (w : List PyStr),
      process_entries iconDrop legacy entries fs = Except.ok (fs2, w) →
      ∀ e ∈ entries,
        ((if legacy then required_fields_legacy else required_fields).all
          (fun k => (fmLookup (icon_adjust iconDrop e.1 e.2) k).isSome)) = true →
        (!legacy && (e.1.contains ' ' || e.1.contains ';' ||
          e.1.contains '%')) = false := by
  intro entries
  induction entries with
  | nil =>
    intro fs fs2 w h e he
    exact absurd he (List.not_mem_nil e)
  | cons e0 rest ih =>
    intro fs fs2 w h e he
    obtain ⟨nm, vals⟩ := e0
    simp only [process_entries] at h
    cases hct : create_template fs (nm ++ pys ".desktop") nm
        (icon_adjust iconDrop nm vals) legacy with
    | error e2 => simp only [hct] at h; exact Except.noConfusion h
    | ok r =>
      obtain ⟨fsA, v2, wrote⟩ := r
      simp only [hct] at h
      cases hpe : process_entries iconDrop legacy rest fsA with
      | error e2 => simp only [hpe] at h; exact Except.noConfusion h
      | ok r2 =>
        obtain ⟨fsB, w2⟩ := r2
        rcases List.mem_cons.mp he with he1 | he1
        · subst he1
          intro hereq
          rw [create_template_eq, if_pos hereq] at hct
          by_cases hassert : (!legacy && (nm.contains ' ' ||
              nm.contains ';' || nm.contains '%')) = true
          · rw [if_pos hassert] at hct
            exact Except.noConfusion hct
          · exact Bool.eq_false_iff.mpr hassert
        · exact ih fsA fsB w2 hpe e he1

theorem process_entries_noop (iconDrop : PyStr → Bool) (legacy : Bool) :
    ∀ (entries : List (PyStr × FieldMap)) (fs : FS),
      (∀ e ∈ entries, ∃ v, create_template fs (e.1 ++ pys ".desktop") e.1
        (icon_adjust iconDrop e.1 e.2) legacy = Except.ok (fs, v, false)) →
      process_entries iconDrop legacy entries fs = Except.ok (fs, []) := by
  intro entries
  induction entries with
  | nil => intro fs _; rfl
  | cons e0 rest ih =>
    intro fs hyp
    obtain ⟨nm, vals⟩ := e0
    obtain ⟨v, hct⟩ := hyp (nm, vals) (List.mem_cons_self _ _)
    simp only [process_entries, hct,
      ih fs (fun e2 he2 => hyp e2 (List.mem_cons_of_mem _ he2))]
    simp

theorem gc_fold_nodelete (hqs : Bool) (names : List PyStr) :
    ∀ (files : List PyStr) (fs : FS),
      (∀ f ∈ files, gc_should_delete hqs names f = false) →
      gc_fold hqs names files fs = (fs, []) := by
  intro files
  induction files with
  | nil => intro fs _; rfl
  | cons f fl ih =>
    intro fs hyp
    have hf := hyp f (List.mem_cons_self _ _)
    simp only [gc_fold, hf]
    exact ih fs (fun g hg => hyp g (List.mem_cons_of_mem _ hg))

/-- C5: launcher writes are gated on byte-for-byte equality with the
existing content, a missing file counting as empty — `create_template`
leaves the filesystem untouched when it reports no write, and when it
writes, the rendered body differed from the existing content; and the
pipeline is idempotent: if a reconciliation pass succeeds, running the
identical pass again on its output succeeds with zero writes and zero
deletions and leaves the filesystem unchanged. -/
theorem C5_content_gated_idempotent :
    (∀ fs path name values legacy fs1 v1,
      (create_template fs path name values legacy = Except.ok (fs1, v1, false) →
        fs1 = fs) ∧
      (create_template fs path name values legacy = Except.ok (fs1, v1, true) →
        ¬(desktop_entry_for path name values legacy).2 = (fsRead fs path).getD [] ∧
        fs1 = fsWrite fs path (desktop_entry_for path name values legacy).2)) ∧
    (∀ fs appmenus legacy hqs iconDrop fs1 w1 d1,
      ((emErase appmenus (pys "qubes-start")).map Prod.fst).Nodup →
      process_appmenus_templates fs appmenus legacy hqs iconDrop
        = Except.ok (fs1, w1, d1) →
      process_appmenus_templates fs1 appmenus legacy hqs iconDrop
        = Except.ok (fs1, [], [])) := by
  constructor
  · intro fs path name values legacy fs1 v1
    constructor
    · intro h
      rw [create_template_eq] at h
      by_cases hreq : ((if legacy then required_fields_legacy
          else required_fields).all (fun k => (fmLookup values k).isSome)) = true
      · rw [if_pos hreq] at h
        by_cases hassert : (!legacy && (name.contains ' ' || name.contains ';' ||
            name.contains '%')) = true
        · rw [if_pos hassert] at h
          exact Except.noConfusion h
        · rw [if_neg hassert] at h
          by_cases hgate : (desktop_entry_for path name values legacy).2
              = (fsRead fs path).getD []
          · rw [if_pos hgate] at h
            simp only [Except.ok.injEq, Prod.mk.injEq] at h
            exact h.1.symm
          · rw [if_neg hgate] at h
            simp only [Except.ok.injEq, Prod.mk.injEq] at h
            exact absurd h.2.2 (by simp)
      · rw [if_neg hreq] at h
        simp only [Except.ok.injEq, Prod.mk.injEq] at h
        exact h.1.symm
    · intro h
      rw [create_template_eq] at h
      by_cases hreq : ((if legacy then required_fields_legacy
          else required_fields).all (fun k => (fmLookup values k).isSome)) = true
      · rw [if_pos hreq] at h
        by_cases hassert : (!legacy && (name.contains ' ' || name.contains ';' ||
            name.contains '%')) = true
        · rw [if_pos hassert] at h
          exact Except.noConfusion h
        · rw [if_neg hassert] at h
          by_cases hgate : (desktop_entry_for path name values legacy).2
              = (fsRead fs path).getD []
          · rw [if_pos hgate] at h
            simp only [Except.ok.injEq, Prod.mk.injEq] at h
            exact absurd h.2.2 (by simp)
          · rw [if_neg hgate] at h
            simp only [Except.ok.injEq, Prod.mk.injEq] at h
            exact ⟨hgate, h.1.symm⟩
      · rw [if_neg hreq] at h
        simp only [Except.ok.injEq, Prod.mk.injEq] at h
        exact absurd h.2.2 (by simp)
  · intro fs appmenus legacy hqs iconDrop fs1 w1 d1 hnd h
    simp only [process_appmenus_templates] at h ⊢
    cases hpe : process_entries iconDrop legacy
        (emErase appmenus (pys "qubes-start"))
        (if hqs && (fsRead fs qubes_start_desktop).isNone then
          (fsWrite fs qubes_start_desktop qubes_start_template_data,
           [qubes_start_desktop])
        else (fs, [])).1 with
    | error e2 => rw [hpe] at h; exact Except.noConfusion h
    | ok r =>
      obtain ⟨fsM, w⟩ := r
      rw [hpe] at h
      simp only [Except.ok.injEq, Prod.mk.injEq] at h
      obtain ⟨hfs1, hw, hd⟩ := h
      -- abbreviations
      have hgcread : ∀ p, fsRead fs1 p
          = if p ∈ fsList fsM ∧ gc_should_delete hqs
              ((emErase appmenus (pys "qubes-start")).map Prod.fst) p = true
            then none else fsRead fsM p := by
        intro p
        rw [← hfs1, gc_fold_read]
      -- entry paths are never deleted by gc
      have hsd_entry : ∀ e ∈ emErase appmenus (pys "qubes-start"),
          gc_should_delete hqs
            ((emErase appmenus (pys "qubes-start")).map Prod.fst)
            (e.1 ++ pys ".desktop") = false := by
        intro e he
        unfold gc_should_delete
        rw [dropDesktopExt_append]
        have : ((emErase appmenus (pys "qubes-start")).map Prod.fst).contains e.1
            = true :=
          (pystr_contains_iff _ _).mpr (List.mem_map_of_mem _ he)
        rw [this]
        simp
      -- the bootstrap file is present in fs1 when hqs
      have hboot1 : hqs = true → (fsRead fs1 qubes_start_desktop).isSome = true := by
        intro hq
        subst hq
        have hsd : gc_should_delete true
            ((emErase appmenus (pys "qubes-start")).map Prod.fst)
            qubes_start_desktop = false := by
          simp [gc_should_delete]
        rw [hgcread,
          if_neg (fun hcon => absurd hcon.2 (by rw [hsd]; exact Bool.false_ne_true))]
        apply process_entries_read_isSome iconDrop legacy _ _ fsM w
          qubes_start_desktop hpe
        by_cases hb : (fsRead fs qubes_start_desktop).isNone = true
        · rw [if_pos (by rw [hb]; rfl)]
          simp only []
          rw [fsRead_fsWrite, if_pos rfl]
          rfl
        · rw [if_neg (by simp [hb])]
          simp only []
          cases hread : fsRead fs qubes_start_desktop with
          | none => rw [hread] at hb; exact absurd rfl hb
          | some c => rfl
      -- second-run bootstrap step is a no-op
      have hboot2 : (hqs && (fsRead fs1 qubes_start_desktop).isNone) = false := by
        cases hq : hqs with
        | false => rfl
        | true =>
          have := hboot1 hq
          cases hread : fsRead fs1 qubes_start_desktop with
          | none => rw [hread] at this; exact absurd this (by simp)
          | some c => simp [hread]
      rw [hboot2]
      simp only [Bool.false_eq_true, if_false]
      -- second-run entry loop performs no writes
      have hnoop : process_entries iconDrop legacy
          (emErase appmenus (pys "qubes-start")) fs1 = Except.ok (fs1, []) := by
        apply process_entries_noop
        intro e he
        by_cases hereq : ((if legacy then required_fields_legacy
            else required_fields).all
            (fun k => (fmLookup (icon_adjust iconDrop e.1 e.2) k).isSome)) = true
        · have hassert := process_entries_ok_names iconDrop legacy _ _ _ _ hpe e he hereq
          have hpost := process_entries_post iconDrop legacy _ _ _ _ hnd hpe e he hereq
          have hread1 : fsRead fs1 (e.1 ++ pys ".desktop")
              = some ((desktop_entry_for (e.1 ++ pys ".desktop") e.1
                  (icon_adjust iconDrop e.1 e.2) legacy).2) := by
            rw [hgcread,
              if_neg (fun hcon => absurd hcon.2
                (by rw [hsd_entry e he]; exact Bool.false_ne_true))]
            exact hpost
          refine ⟨(desktop_entry_for (e.1 ++ pys ".desktop") e.1
              (icon_adjust iconDrop e.1 e.2) legacy).1, ?_⟩
          rw [create_template_eq, if_pos hereq,
            if_neg (by rw [hassert]; exact Bool.false_ne_true),
            if_pos (by rw [hread1, Option.getD_some])]
        · refine ⟨icon_adjust iconDrop e.1 e.2, ?_⟩
          rw [create_template_eq, if_neg hereq]
      simp only [hnoop]
      -- second-run gc deletes nothing
      have hgcnone : ∀ f ∈ fsList fs1,
          gc_should_delete hqs
            ((emErase appmenus (pys "qubes-start")).map Prod.fst) f = false := by
        intro f hf
        have hfsome := (mem_fsList_iff fs1 f).mp hf
        cases hsd : gc_should_delete hqs
            ((emErase appmenus (pys "qubes-start")).map Prod.fst) f with
        | false => rfl
        | true =>
          have hfM : (fsRead fsM f).isSome = true := by
            rw [hgcread f] at hfsome
            by_cases hc : f ∈ fsList fsM ∧ gc_should_delete hqs
                ((emErase appmenus (pys "qubes-start")).map Prod.fst) f = true
            · rw [if_pos hc] at hfsome
              exact absurd hfsome (by simp)
            · rw [if_neg hc] at hfsome
              exact hfsome
          have hmemM : f ∈ fsList fsM := (mem_fsList_iff fsM f).mpr hfM
          have : fsRead fs1 f = none := by
            rw [hgcread f, if_pos ⟨hmemM, hsd⟩]
          rw [this] at hfsome
          exact absurd hfsome (by simp)
      rw [gc_fold_nodelete hqs _ (fsList fs1) fs1 hgcnone]
      rfl

/-- Witness for C5: a run over an empty entry set with a non-launcher file
and the bootstrap write; the second run changes nothing and writes
nothing. -/
theorem C5_idempotent_witness :
    process_appmenus_templates
        [(pys "keep.txt", pys "z"),
         (qubes_start_desktop, qubes_start_template_data)]
        [] true true (fun _ => false)
      = Except.ok ([(pys "keep.txt", pys "z"),
          (qubes_start_desktop, qubes_start_template_data)], [], []) := by
  have h := C5_content_gated_idempotent.2 [(pys "keep.txt", pys "z")] [] true true
    (fun _ => false)
    [(pys "keep.txt", pys "z"), (qubes_start_desktop, qubes_start_template_data)]
    [qubes_start_desktop] [] (by decide) (by decide)
  exact h

end Receive
